import Mathlib

/-!
Verification of the WireViz core: a shallow embedding of the wire-gauge
conversion helpers (`wv_helper.py`), the pin/range expansion function, the
Connector/Cable construction invariants, the connection resolver for 2- and
3-element records, and the bundle-wire BOM aggregation (`wireviz.py`).

Python data is modelled as follows: Python `int` is `Int`, `float` lengths are
modelled exactly as `Rat`, strings are `String`, dicts are insertion-ordered
association lists (update in place, new keys appended), raised exceptions are
the `Except PyError` monad.
-/

namespace WireViz

/-- The exceptions the embedded code can raise, one constructor per distinct
`raise` site / builtin exception in the source. -/
inductive PyError
  | valueError            -- builtin ValueError (int() parse failure, tuple unpack mismatch)
  | indexError            -- builtin IndexError (indexing [0] into an empty list)
  | keyError              -- builtin KeyError (missing dict key)
  | zeroDivisionError     -- builtin ZeroDivisionError
  | tooManyKeys           -- 'Too many keys'
  | badConnection3        -- 'Bad connection definition (3)'
  | wrongDesignators      -- 'Wrong designators'
  | listLengthMismatch    -- 'List length mismatch'
  | pinoutPincount        -- 'You cannot specify both pinout and pincount'
  | unknownColorCode      -- 'Unknown color code'
  | unknownWirecount      -- 'Unknown number of wires. Must specify wirecount or colors (implicit length)'
  | gaugeFormat           -- 'Gauge must be a number, or number and unit separated by a space'
  | wrongConnectionParams -- 'Wrong number of connection parameters'
  | typeError             -- builtin TypeError (duplicate keyword argument)
deriving DecidableEq

deriving instance DecidableEq for Except

/-- First-match lookup in an association list: Python `d[k]` / `d.get(k)`. -/
def alGet {κ α : Type} [DecidableEq κ] : List (κ × α) → κ → Option α
  | [], _ => none
  | (k', v) :: rest, k => if k' = k then some v else alGet rest k

/-- Python `k in d`. -/
def alHas {κ α : Type} [DecidableEq κ] (l : List (κ × α)) (k : κ) : Bool :=
  (alGet l k).isSome

/-- Python `d[k] = v`: update in place if the key exists, append otherwise. -/
def alSet {κ α : Type} [DecidableEq κ] : List (κ × α) → κ → α → List (κ × α)
  | [], k, v => [(k, v)]
  | (k', v') :: rest, k, v =>
      if k' = k then (k, v) :: rest else (k', v') :: alSet rest k v

/-- Value of a decimal digit list, most significant first. -/
def digitsToNat (l : List Char) : Nat :=
  l.foldl (fun acc c => 10 * acc + (c.toNat - '0'.toNat)) 0

/-- Python `s.strip()` as performed by `int()`: drop whitespace on both ends. -/
def stripChars (l : List Char) : List Char :=
  ((l.dropWhile Char.isWhitespace).reverse.dropWhile Char.isWhitespace).reverse

/-- Python `int(s)` on a string: optional surrounding whitespace, an optional
sign, then a nonempty run of decimal digits; `none` models the `ValueError`.
(Underscore separators and non-ASCII digits, which Python also accepts, do not
occur in any input considered here.) -/
def pyInt (s : String) : Option Int :=
  match stripChars s.data with
  | [] => none
  | '-' :: rest =>
      if rest.isEmpty then none
      else if rest.all Char.isDigit then some (-(digitsToNat rest : Int)) else none
  | '+' :: rest =>
      if rest.isEmpty then none
      else if rest.all Char.isDigit then some ((digitsToNat rest : Int)) else none
  | l => if l.all Char.isDigit then some ((digitsToNat l : Int)) else none

/-- Python `s.lower()` (ASCII, as used for the `strict` flags). -/
def pyLower (s : String) : String := String.mk (s.data.map Char.toLower)

/-- `re.findall(r'\d+', s)[0]`: the first maximal run of decimal digits in `s`,
or `none` when `findall` returns the empty list (so that `[0]` raises). -/
def firstDigitRun (s : String) : Option String :=
  match s.data.dropWhile (fun c => !c.isDigit) with
  | [] => none
  | l => some (String.mk (l.takeWhile Char.isDigit))

/-- Index of the first occurrence of `c`, Python `s.find(c)` when present. -/
def firstIdxOf (c : Char) : List Char → Option Nat
  | [] => none
  | x :: rest => if x = c then some 0 else (firstIdxOf c rest).map (· + 1)

/-! ## wv_helper.py: AWG / mm² conversion (parse stages)

`awg_equiv` and `mm2_equiv` continue into floating-point gauge math after
parsing their string argument; every claim about them here is decided in the
parse stage, which is embedded faithfully below.  The result type records
either the parsed integer (with which the numeric conversion would continue)
or the early `'Unknown (...)'` return value.
-/

/-- `uncommon_awg` from wv_helper.py lines 10–15. -/
def uncommon_awg : List (String × String) :=
  [("0000", "4/0"), ("000", "3/0"), ("00", "2/0"), ("0", "1/0")]

/-- Outcome of the argument-parsing stage of `mm2_equiv` / `awg_equiv`. -/
inductive ParseOutcome
  | value (n : Int)      -- parsing succeeded; the numeric conversion continues with n
  | unknown (s : String) -- the function returns the string 'Unknown (' + s + ')'
deriving DecidableEq

/-- The parse stage of `mm2_equiv` (wv_helper.py lines 49–59): map the
`uncommon_awg` spellings, then, when the label contains `'/'`, compute
`n = 1 - int(awg[awg.find('/')])` — note the source indexes the character *at*
the position of `'/'`, which is `'/'` itself — and otherwise take the first
digit run found by `re.findall` (whose `[0]` raises `IndexError` when there is
none; the `except ValueError` there can catch nothing, since `int` of a digit
run never fails).  The `strict` flag does not affect this stage: it is
lowercased at entry and only examined after the numeric conversion.
The `uncommon_awg` rewriting step (lines 51–52) is split out as `mm2_label`. -/
def mm2_label (awg : String) : String :=
  match alGet uncommon_awg awg with
  | some v => v
  | none => awg

def mm2_equiv_parse (awg0 : String) : Except PyError ParseOutcome :=
  let awg := mm2_label awg0
  if awg.data.contains '/' then
    match pyInt (String.mk [awg.data.getD ((firstIdxOf '/' awg.data).getD 0) ' ']) with
    | some d => .ok (.value (1 - d))
    | none => .error .valueError
  else
    match firstDigitRun awg with
    | none => .error .indexError
    | some r =>
      match pyInt r with
      | some n => .ok (.value n)
      | none => .ok (.unknown awg)

/-- The parse stage of `awg_equiv` (wv_helper.py lines 26–33): validate the
`strict` flag, then `mm2 = int(re.findall(r'\d+', mm2)[0])` guarded by
`except ValueError` only — an input without any digit makes `findall` return
`[]`, so the `[0]` raises an uncaught `IndexError`. -/
def awg_equiv_parse (mm2 : String) (strict : String) : Except PyError ParseOutcome :=
  let strict := pyLower strict
  if strict ≠ "yes" ∧ strict ≠ "no" then .error .valueError
  else
    match firstDigitRun mm2 with
    | none => .error .indexError
    | some r =>
      match pyInt r with
      | some n => .ok (.value n)
      | none => .ok (.unknown ("Unknown (" ++ mm2 ++ ")"))

/-! Auxiliary facts about the parse helpers. -/

lemma firstIdxOf_mem {c : Char} : ∀ {l : List Char}, c ∈ l →
    ∃ i, firstIdxOf c l = some i ∧ l.getD i ' ' = c := by
  intro l h
  induction l with
  | nil => simp at h
  | cons x rest ih =>
    by_cases hx : x = c
    · exact ⟨0, by simp [firstIdxOf, hx], by simp [hx]⟩
    · have hrest : c ∈ rest := by
        rcases List.mem_cons.mp h with h' | h'
        · exact absurd h'.symm hx
        · exact h'
      obtain ⟨i, hi, hgd⟩ := ih hrest
      refine ⟨i + 1, ?_, ?_⟩
      · simp [firstIdxOf, hx, hi]
      · simpa using hgd

lemma pyInt_slash : pyInt (String.mk ['/']) = none := by decide

lemma firstDigitRun_none {s : String} (h : ∀ c ∈ s.data, ¬ c.isDigit) :
    firstDigitRun s = none := by
  unfold firstDigitRun
  have : s.data.dropWhile (fun c => !c.isDigit) = [] := by
    apply List.dropWhile_eq_nil_iff.mpr
    intro c hc
    simp [h c hc]
  simp [this]

lemma slash_pyInt_none {l : List Char} (h : l.contains '/' = true) :
    pyInt (String.mk [l.getD ((firstIdxOf '/' l).getD 0) ' ']) = none := by
  have hm : '/' ∈ l := by simpa using h
  obtain ⟨i, hi, hgd⟩ := firstIdxOf_mem hm
  rw [hi]
  show pyInt (String.mk [l.getD i ' ']) = none
  rw [hgd]
  exact pyInt_slash

lemma mm2_label_cases (s : String) :
    mm2_label s = s ∨ mm2_label s ∈ ["4/0", "3/0", "2/0", "1/0"] := by
  unfold mm2_label
  simp only [uncommon_awg, alGet]
  split_ifs <;> simp

/-- C1 (code_bug evidence): every AWG label containing `'/'` — hence every
"N/0" label, and every `uncommon_awg` alternate spelling, all of which are
rewritten to "N/0" form — makes `mm2_equiv` raise an uncaught `ValueError`:
`n = 1 - int(awg[awg.find('/')])` applies `int` to the `'/'` character itself
(the character *at* the found index), never to the digit before it.  The
conversion claimed by the spec is never reached. -/
theorem mm2_equiv_slash_raises :
    (∀ s : String, (mm2_label s).data.contains '/' = true →
      mm2_equiv_parse s = .error .valueError) ∧
    mm2_equiv_parse "0000" = .error .valueError ∧
    mm2_equiv_parse "000" = .error .valueError ∧
    mm2_equiv_parse "00" = .error .valueError ∧
    mm2_equiv_parse "0" = .error .valueError ∧
    mm2_equiv_parse "4/0" = .error .valueError ∧
    mm2_equiv_parse "1/0" = .error .valueError := by
  refine ⟨?_, rfl, rfl, rfl, rfl, rfl, rfl⟩
  intro s hs
  unfold mm2_equiv_parse
  simp only [hs, if_true, slash_pyInt_none hs]

/-- Witness for `mm2_equiv_slash_raises`. -/
theorem mm2_equiv_slash_raises_witness :
    mm2_equiv_parse "2/0" = .error .valueError :=
  mm2_equiv_slash_raises.1 "2/0" (by decide)

/-- C2 (code_bug evidence): `awg_equiv` on a gauge string containing no digit
raises an uncaught `IndexError`: `re.findall(r'\d+', mm2)` returns `[]`, the
`[0]` raises `IndexError`, and the `except ValueError:` clause — the one that
would return `'Unknown (...)'` — cannot catch it (nor anything else: `int` of
a digit run never raises `ValueError`). -/
theorem awg_equiv_no_digits_raises :
    (∀ s : String, (∀ c ∈ s.data, ¬ c.isDigit) →
      awg_equiv_parse s "yes" = .error .indexError) ∧
    awg_equiv_parse "abc" "yes" = .error .indexError := by
  constructor
  · intro s h
    unfold awg_equiv_parse
    have hlower : pyLower "yes" = "yes" := by decide
    rw [firstDigitRun_none h]
    simp [hlower]
  · rfl

/-- Witness for `awg_equiv_no_digits_raises`. -/
theorem awg_equiv_no_digits_raises_witness :
    awg_equiv_parse "mm" "yes" = .error .indexError :=
  awg_equiv_no_digits_raises.1 "mm" (by decide)

/-! ## Pin/range expansion: `expand` (wireviz.py lines 458–484, identical
copy in wv_helper.py lines 92–118) -/

/-- A YAML scalar as it reaches `expand`: an int or a string. -/
inductive Scalar
  | int (n : Int)
  | str (s : String)
deriving DecidableEq

/-- Python `str(e)` on a scalar. -/
def strOfScalar : Scalar → String
  | .int n => toString n
  | .str s => s

/-- Python `s.split(c)` for a single-character separator. -/
def splitOnChar (c : Char) : List Char → List (List Char)
  | [] => [[]]
  | x :: rest =>
    let r := splitOnChar c rest
    if x = c then [] :: r
    else
      match r with
      | [] => [[x]]
      | h :: t => (x :: h) :: t

def pySplit (s : String) (c : Char) : List String :=
  (splitOnChar c s.data).map String.mk

/-- The range emitted for `a-b`: `range(a, b+1)` when `a < b`,
`range(a, b-1, -1)` when `a > b`, and the singleton `[a]` when `a == b`
(wireviz.py lines 470–477). -/
def rangeOut (a b : Int) : List Scalar :=
  if a < b then (List.range (b - a + 1).toNat).map (fun i => Scalar.int (a + i))
  else if b < a then (List.range (a - b + 1).toNat).map (fun i => Scalar.int (a - i))
  else [Scalar.int a]

/-- One iteration of the loop body of `expand`: stringify the element; if it
contains `'-'`, run `a, b = tuple(map(int, e.split('-')))` (which raises
`ValueError` when a part is not an int, or when unpacking other than two
parts) and emit the inclusive range; otherwise emit `int(e)` when that parses
and the literal string when it does not. -/
def expandElem (e : Scalar) : Except PyError (List Scalar) :=
  if (strOfScalar e).data.contains '-' then
    match (pySplit (strOfScalar e) '-').mapM pyInt with
    | some [a, b] => .ok (rangeOut a b)
    | _ => .error .valueError
  else
    match pyInt (strOfScalar e) with
    | some n => .ok [.int n]
    | none => .ok [.str (strOfScalar e)]

/-- The loop of `expand` over the (already list-wrapped) input: outputs are
appended element by element, and any raised exception aborts the whole call. -/
def expandList : List Scalar → Except PyError (List Scalar)
  | [] => .ok []
  | e :: rest =>
    match expandElem e with
    | .error err => .error err
    | .ok xs =>
      match expandList rest with
      | .error err => .error err
      | .ok ys => .ok (xs ++ ys)

/-- `expand(yaml_data)`: a non-list argument is first wrapped in a one-element
list. -/
def expandPy : Sum Scalar (List Scalar) → Except PyError (List Scalar)
  | .inl x => expandList [x]
  | .inr l => expandList l

/-- An element on which the spec's description of `expand` is defined: its
stringification either has no `'-'`, or splits on `'-'` into exactly two
integer-parsable halves. -/
def goodElem (e : Scalar) : Bool :=
  if (strOfScalar e).data.contains '-' then
    match (pySplit (strOfScalar e) '-').mapM pyInt with
    | some [_, _] => true
    | _ => false
  else true

/-- What the spec says `expand` does to one element (§4.2 of the spec):
a `'-'` element with two integer halves becomes the inclusive integer range,
ascending or descending, a singleton for equal endpoints; any other element
becomes the parsed integer or the literal string. -/
def expandElemSpec (e : Scalar) : List Scalar :=
  if (strOfScalar e).data.contains '-' then
    match (pySplit (strOfScalar e) '-').mapM pyInt with
    | some [a, b] => rangeOut a b
    | _ => []
  else
    match pyInt (strOfScalar e) with
    | some n => [.int n]
    | none => [.str (strOfScalar e)]

lemma goodElem_dash {e : Scalar} (hc : (strOfScalar e).data.contains '-' = true)
    (h : goodElem e = true) :
    ∃ a b, (pySplit (strOfScalar e) '-').mapM pyInt = some [a, b] := by
  unfold goodElem at h
  rw [if_pos hc] at h
  cases hm : (pySplit (strOfScalar e) '-').mapM pyInt with
  | none => rw [hm] at h; exact Bool.noConfusion h
  | some parts =>
    match parts with
    | [] => rw [hm] at h; exact Bool.noConfusion h
    | [_] => rw [hm] at h; exact Bool.noConfusion h
    | [a, b] => exact ⟨a, b, rfl⟩
    | _ :: _ :: _ :: _ => rw [hm] at h; exact Bool.noConfusion h

lemma expandElem_good {e : Scalar} (h : goodElem e = true) :
    expandElem e = .ok (expandElemSpec e) := by
  unfold expandElem expandElemSpec
  cases hc : (strOfScalar e).data.contains '-' with
  | false =>
    simp only [hc, Bool.false_eq_true, if_false]
    cases pyInt (strOfScalar e) <;> rfl
  | true =>
    obtain ⟨a, b, hm⟩ := goodElem_dash hc h
    rw [hm]
    rfl

/-- An element whose stringification contains `'-'` but does not split into
exactly two integer halves (e.g. "V-BUS", "-1", "1-2-3"). -/
def badDashElem (e : Scalar) : Bool :=
  (strOfScalar e).data.contains '-' && !(goodElem e)

lemma goodElem_or_badDashElem (e : Scalar) :
    goodElem e = true ∨ badDashElem e = true := by
  cases hg : goodElem e
  · right
    unfold badDashElem
    rw [hg]
    cases hc : (strOfScalar e).data.contains '-'
    · exfalso
      unfold goodElem at hg
      rw [if_neg (by rw [hc]; simp)] at hg
      exact Bool.noConfusion hg
    · rfl
  · left; rfl

lemma expandElem_bad {e : Scalar} (h : badDashElem e = true) :
    expandElem e = .error .valueError := by
  unfold badDashElem at h
  rw [Bool.and_eq_true] at h
  obtain ⟨hc, hng⟩ := h
  have hg : goodElem e = false := by simpa using hng
  unfold expandElem
  rw [if_pos hc]
  unfold goodElem at hg
  rw [if_pos hc] at hg
  cases hm : (pySplit (strOfScalar e) '-').mapM pyInt with
  | none => rfl
  | some parts =>
    match parts with
    | [] => rfl
    | [_] => rfl
    | [a, b] => rw [hm] at hg; exact absurd hg (by simp)
    | _ :: _ :: _ :: _ => rfl

/-- C9: the documented behaviour of `expand`: the three concrete examples
from the spec, and, for every input list whose elements are each either
dash-free or a well-formed two-integer range, the output is the in-order
concatenation of the per-element expansions described by the spec
(`expandElemSpec`). -/
theorem expand_matches_spec :
    expandPy (.inl (.str "3-1")) = .ok [.int 3, .int 2, .int 1] ∧
    expandPy (.inl (.str "1-1")) = .ok [.int 1] ∧
    expandPy (.inr [.str "A", .int 2]) = .ok [.str "A", .int 2] ∧
    ∀ l : List Scalar, (∀ e ∈ l, goodElem e = true) →
      expandList l = .ok (l.flatMap expandElemSpec) := by
  refine ⟨rfl, rfl, rfl, ?_⟩
  intro l
  induction l with
  | nil => intro _; rfl
  | cons e rest ih =>
    intro h
    have he := expandElem_good (h e (by simp))
    have hr := ih (fun x hx => h x (by simp [hx]))
    simp [expandList, he, hr]

/-- Witness for `expand_matches_spec`. -/
theorem expand_matches_spec_witness :
    expandList [.str "1-3", .str "GND"] = .ok ([.str "1-3", .str "GND"].flatMap expandElemSpec) :=
  expand_matches_spec.2.2.2 [.str "1-3", .str "GND"] (by decide)

/-- C10: an element whose stringification contains `'-'` without splitting
into exactly two integer halves makes `expand` raise `ValueError` (from
`int()` on a non-numeric half or from unpacking more than two parts); it is
never emitted as a literal string.  Demonstrated for a hyphenated pin name,
a negative number, and a double range. -/
theorem expand_raises_on_bad_dash :
    (∀ l : List Scalar, (∃ e ∈ l, badDashElem e = true) →
      expandList l = .error .valueError) ∧
    expandPy (.inl (.str "V-BUS")) = .error .valueError ∧
    expandPy (.inl (.int (-1))) = .error .valueError ∧
    expandPy (.inl (.str "1-2-3")) = .error .valueError := by
  refine ⟨?_, rfl, rfl, rfl⟩
  intro l
  induction l with
  | nil => rintro ⟨e, he, -⟩; simp at he
  | cons e rest ih =>
    rintro ⟨x, hx, hbad⟩
    rcases goodElem_or_badDashElem e with hgood | hebad
    · have hxr : x ∈ rest := by
        rcases List.mem_cons.mp hx with h' | h'
        · subst h'
          exfalso
          have := expandElem_good hgood
          have := expandElem_bad hbad
          simp_all
        · exact h'
      have hr := ih ⟨x, hxr, hbad⟩
      simp [expandList, expandElem_good hgood, hr]
    · simp [expandList, expandElem_bad hebad]

/-- Witness for `expand_raises_on_bad_dash`. -/
theorem expand_raises_on_bad_dash_witness :
    expandList [.int 4, .str "V-BUS"] = .error .valueError :=
  expand_raises_on_bad_dash.1 [.int 4, .str "V-BUS"] (by decide)

/-! ## Entity model: Connection, Connector, Cable (wireviz.py lines 328–444)

The dataclass `__post_init__` bodies are embedded as `mkConnector` / `mkCable`
functions from the declared attributes to the constructed entity (or the
raised exception).  Only the attributes with behaviour are modelled; pure
display strings (part numbers, notes, show flags) play no role in any claim
and are omitted.
-/

/-- `Connection` (wireviz.py lines 438–444).  Endpoint names/ports are `none`
where the source stores Python `None` ("open" side). -/
structure Connection where
  from_name : Option String
  from_port : Option Scalar
  via_port  : Scalar
  to_name   : Option String
  to_port   : Option Scalar
deriving DecidableEq

/-- The declared attributes of a connector (or of a ferrule template). -/
structure ConnectorParams where
  category : Option String := none
  type : Option String := none
  subtype : Option String := none
  pincount : Option Int := none
  pinout : List Scalar := []
  hide_disconnected_pins : Bool := false
deriving DecidableEq

/-- A constructed `Connector` with its derived state
(`ports_left`/`ports_right`, `loops`, `visible_pins` — wireviz.py lines
343–347).  `visible_pins` is the Python dict keyed by the raw pin value
passed to `activate_pin` (which can in principle be `None`, hence the
`Option Scalar` key). -/
structure Connector where
  name : String
  category : Option String
  type : Option String
  subtype : Option String
  pincount : Int
  pinout : List Scalar
  hide_disconnected_pins : Bool
  ports_left : Bool
  ports_right : Bool
  loops : List (Scalar × Scalar)
  visible_pins : List (Option Scalar × Bool)
deriving DecidableEq

/-- `Connector.__post_init__` (wireviz.py lines 343–357): a truthy (non-empty)
`pinout` together with a non-`None` `pincount` raises; with a truthy `pinout`
alone, `pincount = len(pinout)`; otherwise a falsy (`None` or `0`) `pincount`
defaults to 1 and `pinout` becomes `[''] * pincount` (the empty list for a
negative `pincount`, as in Python). -/
def mkConnector (name : String) (p : ConnectorParams) : Except PyError Connector :=
  if !p.pinout.isEmpty then
    match p.pincount with
    | some _ => .error .pinoutPincount
    | none =>
        .ok ⟨name, p.category, p.type, p.subtype, (p.pinout.length : Int), p.pinout,
             p.hide_disconnected_pins, false, false, [], []⟩
  else
    let pc : Int :=
      match p.pincount with
      | none => 1
      | some k => if k = 0 then 1 else k
    .ok ⟨name, p.category, p.type, p.subtype, pc, List.replicate pc.toNat (.str ""),
         p.hide_disconnected_pins, false, false, [], []⟩

/-- `Connector.loop` (wireviz.py lines 359–363). -/
def Connector.addLoop (c : Connector) (from_pin to_pin : Scalar) : Connector :=
  let c1 := { c with loops := c.loops ++ [(from_pin, to_pin)] }
  if c1.hide_disconnected_pins then
    let vp := alSet (alSet c1.visible_pins (some from_pin) true) (some to_pin) true
    { c1 with visible_pins := vp }
  else c1

/-- `Connector.activate_pin` (wireviz.py lines 365–366). -/
def Connector.activatePin (c : Connector) (pin : Option Scalar) : Connector :=
  { c with visible_pins := alSet c.visible_pins pin true }

/-- C8 counterexample: declaring a connector with `pinout` explicitly set to
the empty list *and* `pincount = 3` does **not** fail: the empty list is falsy
in Python, so the `if self.pinout:` guard skips the both-given check and the
connector is built from `pincount` alone. -/
theorem connector_both_pinout_pincount_accepted :
    mkConnector "X1" { pincount := some 3, pinout := [] } =
      .ok ⟨"X1", none, none, none, 3, [.str "", .str "", .str ""],
           false, false, false, [], []⟩ := by
  rfl

/-- C8 (amended): giving a *non-empty* `pinout` together with an explicit
`pincount` always fails with the both-given schema error; giving neither
yields `pincount = 1` with a single blank pin label; and for every
successfully constructed connector whose declared `pincount` was absent or
nonnegative, `pincount` equals the length of the pinout list.  (A declared
`pincount = -2` yields `pincount = -2` with an empty pinout, since
`[''] * -2 == []` in Python — hence the nonnegativity proviso.) -/
theorem connector_post_init_spec :
    (∀ name p, p.pinout ≠ [] → p.pincount ≠ none →
      mkConnector name p = .error .pinoutPincount) ∧
    (∀ name p, p.pinout = [] → p.pincount = none →
      mkConnector name p =
        .ok ⟨name, p.category, p.type, p.subtype, 1, [.str ""],
             p.hide_disconnected_pins, false, false, [], []⟩) ∧
    (∀ name p c, (∀ k, p.pincount = some k → 0 ≤ k) →
      mkConnector name p = .ok c → c.pincount = (c.pinout.length : Int)) := by
  refine ⟨?_, ?_, ?_⟩
  · intro name p hpo hpc
    unfold mkConnector
    rw [if_pos (by simpa using hpo)]
    match hp : p.pincount with
    | some k => rfl
    | none => exact absurd hp hpc
  · intro name p hpo hpc
    unfold mkConnector
    rw [if_neg (by simp [hpo]), hpc]
    rfl
  · intro name p c hk hok
    unfold mkConnector at hok
    by_cases hpo : p.pinout = []
    · rw [if_neg (by simp [hpo])] at hok
      match hp : p.pincount with
      | none =>
        rw [hp] at hok
        cases hok
        simp
      | some k =>
        rw [hp] at hok
        have hk0 : 0 ≤ k := hk k hp
        cases hok
        by_cases hz : k = 0
        · simp [hz]
        · simp only [hz, if_false]
          simp [Int.toNat_of_nonneg hk0]
    · rw [if_pos (by simpa using hpo)] at hok
      match hp : p.pincount with
      | some k => rw [hp] at hok; cases hok
      | none =>
        rw [hp] at hok
        cases hok
        simp

/-- Witness for `connector_post_init_spec`. -/
theorem connector_post_init_spec_witness :
    mkConnector "J1" { pincount := some 2, pinout := [.str "VCC", .str "GND"] } =
      .error .pinoutPincount :=
  connector_post_init_spec.1 "J1"
    { pincount := some 2, pinout := [.str "VCC", .str "GND"] }
    (by decide) (by decide)

/-- A cable gauge after `__post_init__`: a number, or the string half of a
split `"value unit"` gauge string (the source keeps that half as a string). -/
inductive GaugeVal
  | num (q : ℚ)
  | str (s : String)
deriving DecidableEq

/-- Python `u.replace('mm2', 'mm²')`, scanning left to right. -/
def replaceMm2 : List Char → List Char
  | 'm' :: 'm' :: '2' :: rest => 'm' :: 'm' :: '²' :: replaceMm2 rest
  | c :: rest => c :: replaceMm2 rest
  | [] => []

/-- Python `l * n` for lists. -/
def repeatList {α : Type} (l : List α) : Nat → List α
  | 0 => []
  | n + 1 => l ++ repeatList l n

/-- Python `l[:k]`, including the negative-index case
(`l[:k] == l[:max(0, len(l)+k)]` for `k < 0`). -/
def pySliceTo {α : Type} (l : List α) (k : Int) : List α :=
  if 0 ≤ k then l.take k.toNat else l.take ((l.length : Int) + k).toNat

/-- The declared attributes of a cable. -/
structure CableParams where
  category : Option String := none
  gauge : Option GaugeVal := none
  gauge_unit : Option String := none
  length : ℚ := 0
  wirecount : Option Int := none
  shield : Bool := false
  colors : List String := []
  color_code : Option String := none
deriving DecidableEq

/-- A constructed `Cable` (wireviz.py lines 368–426) with its resolved gauge,
wirecount and colors, and its owned connection list. -/
structure Cable where
  name : String
  category : Option String
  gauge : Option GaugeVal
  gauge_unit : Option String
  length : ℚ
  wirecount : Int
  shield : Bool
  colors : List String
  connections : List Connection
deriving DecidableEq

/-- The gauge-normalisation step of `Cable.__post_init__` (wireviz.py lines
389–400): a string gauge must split on a space into exactly a value and a
unit (else the gauge-format exception), with `mm2` rewritten to `mm²` in the
unit; a numeric gauge defaults the missing unit to `mm²`. -/
def gaugeResolve (gauge : Option GaugeVal) (gauge_unit : Option String) :
    Except PyError (Option GaugeVal × Option String) :=
  match gauge with
  | some (.str s) =>
    match pySplit s ' ' with
    | [g, u] => .ok (some (.str g), some (String.mk (replaceMm2 u.data)))
    | _ => .error .gaugeFormat
  | some (.num q) =>
    .ok (some (.num q),
         some (match gauge_unit with | some u => u | none => "mm²"))
  | none => .ok (none, gauge_unit)

/-- The wirecount/colors step of `Cable.__post_init__` (wireviz.py lines
404–423), parameterised by the `wv_colors.COLOR_CODES` table (that module is
not part of the embedded sources; only key lookup matters here).  A truthy
(nonzero) wirecount takes the explicit colors when non-empty, else a truthy
color code's palette (unknown code raises), else blank placeholders; then
`colors * (wirecount // len(colors) + 1)` pads when wirecount exceeds the
palette (`ZeroDivisionError` on an empty palette) and `colors[:wirecount]`
truncates.  A falsy wirecount is inferred from a non-empty colors list, and
raises when colors is empty too. -/
def paletteChoice (color_codes : List (String × List String)) (k : Int)
    (colors : List String) (color_code : Option String) :
    Except PyError (List String) :=
  if !colors.isEmpty then .ok colors
  else
    match color_code with
    | some cc =>
      if cc.data.isEmpty then .ok (List.replicate k.toNat "")
      else
        match alGet color_codes cc with
        | none => .error .unknownColorCode
        | some pal => .ok pal
    | none => .ok (List.replicate k.toNat "")

def padTruncate (k : Int) (cols : List String) : Except PyError (Int × List String) :=
  if (cols.length : Int) < k then
    if cols.length = 0 then .error .zeroDivisionError
    else .ok (k, pySliceTo (repeatList cols (Int.fdiv k (cols.length : Int) + 1).toNat) k)
  else .ok (k, pySliceTo cols k)

def inferFromColors (colors : List String) : Except PyError (Int × List String) :=
  if colors.isEmpty then .error .unknownWirecount
  else .ok ((colors.length : Int), colors)

def colorsResolve (color_codes : List (String × List String))
    (wirecount : Option Int) (colors : List String) (color_code : Option String) :
    Except PyError (Int × List String) :=
  match wirecount with
  | none => inferFromColors colors
  | some k =>
    if k = 0 then inferFromColors colors
    else
      match paletteChoice color_codes k colors color_code with
      | .error e => .error e
      | .ok cols => padTruncate k cols

/-- `Cable.__post_init__` as a constructor function. -/
def mkCable (color_codes : List (String × List String)) (name : String)
    (p : CableParams) : Except PyError Cable :=
  match gaugeResolve p.gauge p.gauge_unit with
  | .error e => .error e
  | .ok (g, gu) =>
    match colorsResolve color_codes p.wirecount p.colors p.color_code with
    | .error e => .error e
    | .ok (wc, cols) =>
      .ok ⟨name, p.category, g, gu, p.length, wc, p.shield, cols, []⟩

/-! Facts about color padding and truncation. -/

lemma repeatList_length {α : Type} (l : List α) : ∀ q : Nat,
    (repeatList l q).length = q * l.length
  | 0 => by simp [repeatList]
  | q + 1 => by
      simp [repeatList, repeatList_length l q, Nat.succ_mul, Nat.add_comm]

lemma take_getD {α : Type} (d : α) : ∀ (l : List α) (n i : Nat), i < n →
    (l.take n).getD i d = l.getD i d
  | [], _, _, _ => by simp
  | _ :: _, 0, _, h => by omega
  | _ :: _, _ + 1, 0, _ => by simp
  | x :: xs, n + 1, i + 1, h => by
      simp only [List.take_succ_cons, List.getD_cons_succ]
      exact take_getD d xs n i (by omega)

lemma repeatList_getD {α : Type} (d : α) (l : List α) (_hl : 0 < l.length) :
    ∀ (q i : Nat), i < q * l.length →
      (repeatList l q).getD i d = l.getD (i % l.length) d := by
  intro q
  induction q with
  | zero => intro i h; omega
  | succ q ih =>
    intro i h
    show (l ++ repeatList l q).getD i d = _
    by_cases hi : i < l.length
    · rw [List.getD_append _ _ _ _ hi, Nat.mod_eq_of_lt hi]
    · push_neg at hi
      rw [List.getD_append_right _ _ _ _ hi]
      have h2 : i - l.length < q * l.length := by
        rw [Nat.succ_mul] at h
        omega
      rw [ih (i - l.length) h2, ← Nat.mod_eq_sub_mod hi]

lemma pad_covers {k : Int} {cols : List String} (hlen : 0 < cols.length)
    (hk : (cols.length : Int) < k) :
    k.toNat ≤ (Int.fdiv k (cols.length : Int) + 1).toNat * cols.length := by
  have hlen' : (0 : Int) < (cols.length : Int) := by exact_mod_cast hlen
  have hk0 : (0 : Int) < k := lt_trans hlen' hk
  have hfd : 0 ≤ Int.fdiv k (cols.length : Int) :=
    Int.fdiv_nonneg (le_of_lt hk0) (le_of_lt hlen')
  have key : k ≤ (Int.fdiv k (cols.length : Int) + 1) * (cols.length : Int) := by
    have h1 : (cols.length : Int) * Int.fdiv k (cols.length : Int)
        + Int.fmod k (cols.length : Int) = k := Int.fdiv_add_fmod k (cols.length : Int)
    have h2 : Int.fmod k (cols.length : Int) < (cols.length : Int) :=
      Int.fmod_lt_of_pos k hlen'
    nlinarith
  rw [← Int.toNat_of_nonneg (show (0:Int) ≤ Int.fdiv k (cols.length : Int) + 1 by omega)] at key
  apply Int.toNat_le.mpr
  push_cast
  exact key

/-- The padded-and-truncated palette has length exactly `k` and repeats the
palette cyclically, for `0 < len < k`. -/
lemma padTruncate_spec {k : Int} {cols : List String} (hlen : 0 < cols.length)
    (hk : (cols.length : Int) < k) :
    ∃ res, padTruncate k cols = .ok (k, res) ∧
      (res.length : Int) = k ∧
      ∀ i : Nat, (i : Int) < k → res.getD i "" = cols.getD (i % cols.length) "" := by
  have hk0 : (0 : Int) < k := lt_trans (by exact_mod_cast hlen) hk
  unfold padTruncate
  rw [if_pos hk, if_neg (by omega)]
  refine ⟨_, rfl, ?_, ?_⟩
  · unfold pySliceTo
    rw [if_pos (le_of_lt hk0)]
    rw [List.length_take, repeatList_length]
    have := pad_covers hlen hk
    have hmin : min k.toNat ((Int.fdiv k (cols.length : Int) + 1).toNat * cols.length) = k.toNat := by
      omega
    rw [hmin]
    exact Int.toNat_of_nonneg (le_of_lt hk0)
  · intro i hik
    have hiK : i < k.toNat := by omega
    unfold pySliceTo
    rw [if_pos (le_of_lt hk0)]
    rw [take_getD _ _ _ _ hiK]
    apply repeatList_getD _ _ hlen
    have := pad_covers hlen hk
    omega

lemma colorsResolve_wirecount {color_codes : List (String × List String)}
    {w : Option Int} {colors res : List String} {code : Option String} {wc : Int}
    (hw : ∀ k, w = some k → 0 ≤ k)
    (hok : colorsResolve color_codes w colors code = .ok (wc, res)) :
    wc = (res.length : Int) := by
  unfold colorsResolve at hok
  have hInfer : ∀ hok : inferFromColors colors = .ok (wc, res), wc = (res.length : Int) := by
    intro hok
    unfold inferFromColors at hok
    split at hok
    · cases hok
    · cases hok; rfl
  cases w with
  | none => exact hInfer hok
  | some k =>
    have hk0 : 0 ≤ k := hw k rfl
    have hok2 : (if k = 0 then inferFromColors colors
        else
          match paletteChoice color_codes k colors code with
          | .error e => Except.error e
          | .ok cols => padTruncate k cols) = Except.ok (wc, res) := hok
    clear hok
    rename' hok2 => hok
    split at hok
    · exact hInfer hok
    · rename_i hkz
      split at hok
      · cases hok
      · rename_i cols hpal
        unfold padTruncate at hok
        split at hok
        · rename_i hlt
          split at hok
          · cases hok
          · rename_i hnz
            rw [Except.ok.injEq, Prod.mk.injEq] at hok
            obtain ⟨h1, h2⟩ := hok
            rw [← h1, ← h2]
            have hlen : 0 < cols.length := Nat.pos_of_ne_zero hnz
            obtain ⟨res', hres', hlen', -⟩ := padTruncate_spec hlen hlt
            unfold padTruncate at hres'
            rw [if_pos hlt, if_neg hnz, Except.ok.injEq, Prod.mk.injEq] at hres'
            obtain ⟨-, h3⟩ := hres'
            rw [h3]
            exact hlen'.symm
        · rename_i hge
          rw [Except.ok.injEq, Prod.mk.injEq] at hok
          obtain ⟨h1, h2⟩ := hok
          rw [← h1, ← h2]
          unfold pySliceTo
          rw [if_pos hk0, List.length_take]
          push_neg at hge
          have hle : k.toNat ≤ cols.length := by omega
          rw [Nat.min_eq_left hle]
          exact (Int.toNat_of_nonneg hk0).symm

/-- C7 counterexample: a cable declared with `wirecount = -1` and
`colors = ["red"]` is constructed without error, but ends with
`wirecount = -1` and an *empty* colors list (`['red'][:-1] == []`), so the
claimed invariant `wirecount == len(colors)` fails. -/
theorem cable_negative_wirecount_breaks_invariant :
    mkCable [] "W1" { wirecount := some (-1), colors := ["red"] } =
      .ok ⟨"W1", none, none, none, 0, -1, false, [], []⟩ ∧
    (-1 : Int) ≠ (([] : List String).length : Int) :=
  ⟨rfl, by decide⟩

/-- C7 (amended): (a) a cable with explicit wirecount `n` and an explicit
palette of `m` colors, `0 < m < n`, resolves to a colors list of length
exactly `n` equal to the palette repeated cyclically and truncated;
(b) for every cable constructed with an absent or *nonnegative* declared
wirecount, the resolved wirecount equals the length of the resolved colors
list (a negative wirecount survives while Python's negative slice empties the
list, hence the proviso); (c) a cable with neither wirecount nor colors
fails with an error. -/
theorem cable_colors_spec :
    (∀ (ccodes : List (String × List String)) (name : String) (p : CableParams)
        (n : Int) (palette : List String),
      p.wirecount = some n → p.colors = palette →
      0 < palette.length → (palette.length : Int) < n →
      (∃ g gu, gaugeResolve p.gauge p.gauge_unit = .ok (g, gu)) →
      ∃ c, mkCable ccodes name p = .ok c ∧
        (c.colors.length : Int) = n ∧
        ∀ i : Nat, (i : Int) < n →
          c.colors.getD i "" = palette.getD (i % palette.length) "") ∧
    (∀ ccodes name p c, (∀ k, p.wirecount = some k → 0 ≤ k) →
      mkCable ccodes name p = .ok c → c.wirecount = (c.colors.length : Int)) ∧
    (∀ ccodes name p, p.wirecount = none → p.colors = [] →
      ∃ e, mkCable ccodes name p = .error e) := by
  refine ⟨?_, ?_, ?_⟩
  · intro ccodes name p n palette hw hcol hm hmn hg
    obtain ⟨g, gu, hgr⟩ := hg
    have hn0 : (0 : Int) < n := lt_trans (by exact_mod_cast hm) hmn
    have hpal : paletteChoice ccodes n p.colors p.color_code = .ok palette := by
      unfold paletteChoice
      have hne : (!p.colors.isEmpty) = true := by
        rw [hcol]
        cases palette with
        | nil => simp at hm
        | cons a t => rfl
      rw [if_pos hne, hcol]
    have hcr : colorsResolve ccodes p.wirecount p.colors p.color_code =
        padTruncate n palette := by
      rw [hw]
      have hstep : colorsResolve ccodes (some n) p.colors p.color_code =
          (if n = 0 then inferFromColors p.colors
           else
             match paletteChoice ccodes n p.colors p.color_code with
             | .error e => Except.error e
             | .ok cols => padTruncate n cols) := rfl
      rw [hstep, if_neg (by omega), hpal]
    obtain ⟨res, hres, hlen, hpt⟩ := padTruncate_spec hm hmn
    refine ⟨⟨name, p.category, g, gu, p.length, n, p.shield, res, []⟩, ?_, hlen, hpt⟩
    unfold mkCable
    rw [hgr, hcr, hres]
  · intro ccodes name p c hwk hok
    unfold mkCable at hok
    split at hok
    · cases hok
    · split at hok
      · cases hok
      · rename_i g gu hgr wc cols hcr
        cases hok
        exact colorsResolve_wirecount hwk hcr
  · intro ccodes name p hw hcols
    cases hG : gaugeResolve p.gauge p.gauge_unit with
    | error e => exact ⟨e, by simp [mkCable, hG]⟩
    | ok pr =>
      refine ⟨.unknownWirecount, ?_⟩
      obtain ⟨g, gu⟩ := pr
      have : colorsResolve ccodes p.wirecount p.colors p.color_code =
          .error .unknownWirecount := by
        rw [hw, hcols]
        rfl
      simp [mkCable, hG, this]

/-- Witness for `cable_colors_spec`. -/
theorem cable_colors_spec_witness :
    ∃ c, mkCable [] "W2" { wirecount := some 5, colors := ["red", "blue"] } = .ok c ∧
      (c.colors.length : Int) = 5 ∧
      ∀ i : Nat, (i : Int) < 5 →
        c.colors.getD i "" = ["red", "blue"].getD (i % (["red", "blue"] : List String).length) "" :=
  cable_colors_spec.1 [] "W2" { wirecount := some 5, colors := ["red", "blue"] }
    5 ["red", "blue"] rfl rfl (by decide) (by decide) ⟨none, none, rfl⟩

/-! ## Harness and the connection resolver (wireviz.py lines 12–33, 486–620)

`parse` builds a `Harness` from the document's `connectors`/`cables` sections
and then walks the `connections` records.  The resolver embedding covers one
record at a time: `parse3` for 3-element records and `parse2` for 2-element
records, over an `Input` holding the three name-resolving sections that
`check_designators` consults (with the ferrule templates' attribute bags) and
the `Harness` built so far.  The global `ferrule_counter` is threaded
explicitly.
-/

structure Harness where
  connectors : List (String × Connector)
  cables : List (String × Cable)
deriving DecidableEq

/-- `Cable.connect` (wireviz.py lines 428–436) at the scalar call sites used
by `parse`: `int2tuple` wraps each scalar pin into a 1-tuple, so the
`len(from_pin) != len(to_pin)` check passes and exactly one `Connection` is
appended. -/
def Cable.connectOne (c : Cable) (from_name : Option String) (from_pin : Option Scalar)
    (via_pin : Scalar) (to_name : Option String) (to_pin : Option Scalar) : Cable :=
  { c with connections := c.connections ++ [⟨from_name, from_pin, via_pin, to_name, to_pin⟩] }

/-- `self.connectors[name].activate_pin(pin)` guarded by membership. -/
def Harness.activateName (h : Harness) (n : String) (pin : Option Scalar) : Harness :=
  match alGet h.connectors n with
  | none => h
  | some c => { h with connectors := alSet h.connectors n (c.activatePin pin) }

/-- One `if name in self.connectors: self.connectors[name].activate_pin(pin)`
half of `Harness.connect` (wireviz.py lines 30–33); `None in dict` is false. -/
def Harness.activate (h : Harness) (name : Option String) (pin : Option Scalar) : Harness :=
  match name with
  | none => h
  | some n => h.activateName n pin

/-- `Harness.connect` (wireviz.py lines 28–33): `self.cables[via_name]` raises
`KeyError` for an undeclared cable; then the `Connection` is appended and the
endpoint pins are activated on whichever endpoint connectors exist. -/
def Harness.connect (h : Harness) (from_name : Option String) (from_pin : Option Scalar)
    (via_name : String) (via_pin : Scalar)
    (to_name : Option String) (to_pin : Option Scalar) : Except PyError Harness :=
  match alGet h.cables via_name with
  | none => .error .keyError
  | some c =>
    let cabs := alSet h.cables via_name (c.connectOne from_name from_pin via_pin to_name to_pin)
    let h1 : Harness := { h with cables := cabs }
    .ok ((h1.activate from_name from_pin).activate to_name to_pin)

/-- `Harness.loop` (wireviz.py lines 25–26): `KeyError` for an undeclared
connector, else `Connector.loop`. -/
def Harness.addLoop (h : Harness) (name : String) (from_pin to_pin : Scalar) :
    Except PyError Harness :=
  match alGet h.connectors name with
  | none => .error .keyError
  | some c => .ok { h with connectors := alSet h.connectors name (c.addLoop from_pin to_pin) }

/-- `Harness.add_connector` (wireviz.py lines 19–20), propagating
`__post_init__` exceptions. -/
def Harness.addConnector (h : Harness) (name : String) (p : ConnectorParams) :
    Except PyError Harness :=
  match mkConnector name p with
  | .error e => .error e
  | .ok c => .ok { h with connectors := alSet h.connectors name c }

/-- The name-resolving sections of the parsed document that
`check_designators` consults (`input['connectors']`, `input['cables']`,
`input['ferrules']`); ferrule templates keep their attribute bags, read on
instantiation. -/
structure Input where
  connectors : List String
  cables : List String
  ferrules : List (String × ConnectorParams)
deriving DecidableEq

inductive Sec
  | connectors
  | cables
  | ferrules
deriving DecidableEq

/-- Python `x in input[sec]` (dict key membership). -/
def inputHas (inp : Input) : Sec → String → Bool
  | .connectors, x => inp.connectors.contains x
  | .cables, x => inp.cables.contains x
  | .ferrules, x => alHas inp.ferrules x

/-- `check_designators(what, where)` (wireviz.py lines 486–490).  The source
indexes `where[i]` for each element of `what`; every call site passes lists
of equal length, which this zip-style recursion mirrors. -/
def check_designators (inp : Input) : List String → List Sec → Bool
  | [], _ => true
  | x :: xs, w :: ws => inputHas inp w x && check_designators inp xs ws
  | _ :: _, [] => false

/-- A pin specification in a connection record: a scalar or a list of
scalars. -/
abbrev PinSpec := Sum Scalar (List Scalar)

/-- An element of a 2-element connection record: a bare name string, or a
mapping (a Python dict, modelled by its entry list). -/
inductive RecElem
  | bare (s : String)
  | dict (entries : List (String × PinSpec))
deriving DecidableEq

/-- The per-element key-count check `if len(list(c.keys())) != 1: raise
Exception('Too many keys')`, applied only to dict elements in the 2-element
branch (wireviz.py lines 545–548). -/
def elemKeyCheck : RecElem → Except PyError Unit
  | .bare _ => .ok ()
  | .dict es => if es.length ≠ 1 then .error .tooManyKeys else .ok ()

/-- The bare-string normalisation `con[i] = {name: name}` (wireviz.py lines
550–558). -/
def normElem : RecElem → List (String × PinSpec)
  | .bare s => [(s, Sum.inl (Scalar.str s))]
  | .dict es => es

/-- The `for (from_pin, to_pin) in zip(...)` loop of the (connector, cable)
pattern: `h.connect(from_name, from_pin, to_name, to_pin, None, None)` per
pair (wireviz.py lines 581–584). -/
def conCblFold (f t : String) : Harness → List (Scalar × Scalar) → Except PyError Harness
  | h, [] => .ok h
  | h, (fp, tp) :: rest =>
    match h.connect (some f) (some fp) t tp none none with
    | .error e => .error e
    | .ok h' => conCblFold f t h' rest

/-- The (cable, connector) loop: `h.connect(None, None, from_name, from_pin,
to_name, to_pin)` per pair (wireviz.py lines 585–586). -/
def cblConFold (f t : String) : Harness → List (Scalar × Scalar) → Except PyError Harness
  | h, [] => .ok h
  | h, (fp, tp) :: rest =>
    match h.connect none none f fp (some t) (some tp) with
    | .error e => .error e
    | .ok h' => cblConFold f t h' rest

/-- The (connector, connector) loop: `h.loop(cocon_coname, from_pin, to_pin)`
per pair (wireviz.py lines 587–593). -/
def loopsFold (name : String) : Harness → List (Scalar × Scalar) → Except PyError Harness
  | h, [] => .ok h
  | h, (fp, tp) :: rest =>
    match h.addLoop name fp tp with
    | .error e => .error e
    | .ok h' => loopsFold name h' rest

/-- The 3-element record loop: one `h.connect(from_name, from_pin, via_name,
via_pin, to_name, to_pin)` per parallel pin triple (wireviz.py lines
540–541). -/
def connect3Fold (f v t : String) : Harness → List (Scalar × Scalar × Scalar) →
    Except PyError Harness
  | h, [] => .ok h
  | h, (fp, vp, tp) :: rest =>
    match h.connect (some f) (some fp) v vp (some t) (some tp) with
    | .error e => .error e
    | .ok h' => connect3Fold f v t h' rest

def zip3 {α β γ : Type} : List α → List β → List γ → List (α × β × γ)
  | a :: as, b :: bs, c :: cs => (a, b, c) :: zip3 as bs cs
  | _, _, _ => []

/-- The ferrule-instantiation loop (wireviz.py lines 607–616): per cable pin,
increment the counter, `h.add_connector('_F<n>', category='ferrule',
**ferrule_params)`, then connect the instance's pin 1 to the cable pin in the
pattern's direction.  If the template itself declares a `category` key, the
call raises `TypeError: got multiple values for keyword argument 'category'`
as soon as it is made — i.e. on the first pin, before anything is added. -/
def ferruleFold (cableName : String) (params : ConnectorParams) (ferCbl : Bool) :
    Harness → Nat → List Scalar → Except PyError (Harness × Nat)
  | h, counter, [] => .ok (h, counter)
  | h, counter, pin :: rest =>
    match params.category with
    | some _ => .error .typeError
    | none =>
      let fid := "_F" ++ toString (counter + 1)
      match h.addConnector fid { params with category := some "ferrule" } with
      | .error e => .error e
      | .ok h1 =>
        match (if ferCbl then h1.connect (some fid) (some (.int 1)) cableName pin none none
               else h1.connect none none cableName pin (some fid) (some (.int 1))) with
        | .error e => .error e
        | .ok h2 => ferruleFold cableName params ferCbl h2 (counter + 1) rest

/-- Everything the 2-element branch does after the `'Wrong designators'`
check, given the five pattern booleans (wireviz.py lines 574–616); pin
re-expansions in the source recompute the same values and are reused here. -/
def parse2rest (inp : Input) (h : Harness) (counter : Nat) (fromName toName : String)
    (fromSpec toSpec : PinSpec)
    (con_cbl cbl_con con_con fer_cbl cbl_fer : Bool) : Except PyError (Harness × Nat) :=
  match expandPy fromSpec with
  | .error e => .error e
  | .ok from_pins =>
    match expandPy toSpec with
    | .error e => .error e
    | .ok to_pins =>
      if (con_cbl || cbl_con || con_con) && (from_pins.length != to_pins.length) then
        .error .listLengthMismatch
      else
        match (if con_cbl then conCblFold fromName toName h (from_pins.zip to_pins)
               else if cbl_con then cblConFold fromName toName h (from_pins.zip to_pins)
               else if con_con then loopsFold fromName h (from_pins.zip to_pins)
               else .ok h) with
        | .error e => .error e
        | .ok h1 =>
          if fer_cbl || cbl_fer then
            let ferruleName := if fer_cbl then fromName else toName
            let cableName := if fer_cbl then toName else fromName
            let cablePins := if fer_cbl then to_pins else from_pins
            match alGet inp.ferrules ferruleName with
            | none => .error .keyError
            | some params => ferruleFold cableName params fer_cbl h1 counter cablePins
          else .ok (h1, counter)

/-- The 2-element branch of `parse` for a single normalised record (wireviz.py
lines 560–616): compute the five role-pattern booleans in order, reject with
`'Wrong designators'` when none holds, then process the matching branches. -/
def parse2core (inp : Input) (h : Harness) (counter : Nat) (fromName toName : String)
    (fromSpec toSpec : PinSpec) : Except PyError (Harness × Nat) :=
  let con_cbl := check_designators inp [fromName, toName] [.connectors, .cables]
  let cbl_con := check_designators inp [fromName, toName] [.cables, .connectors]
  let con_con := check_designators inp [fromName, toName] [.connectors, .connectors]
  let fer_cbl := check_designators inp [fromName, toName] [.ferrules, .cables]
  let cbl_fer := check_designators inp [fromName, toName] [.cables, .ferrules]
  if !con_cbl && !cbl_con && !con_con && !fer_cbl && !cbl_fer then .error .wrongDesignators
  else parse2rest inp h counter fromName toName fromSpec toSpec
         con_cbl cbl_con con_con fer_cbl cbl_fer

/-- A whole 2-element connection record (wireviz.py lines 543–616): per-element
key-count checks, bare-string normalisation, then `parse2core`. -/
def parse2 (inp : Input) (h : Harness) (counter : Nat) (e0 e1 : RecElem) :
    Except PyError (Harness × Nat) :=
  match elemKeyCheck e0 with
  | .error e => .error e
  | .ok _ =>
    match elemKeyCheck e1 with
    | .error e => .error e
    | .ok _ =>
      match normElem e0, normElem e1 with
      | (fn, fs) :: _, (tn, ts) :: _ => parse2core inp h counter fn tn fs ts
      | _, _ => .error .indexError

/-- The body of the 3-element branch once the three designators and pin
specifications are extracted (wireviz.py lines 529–541): role check
`(connectors, cables, connectors)`, expansion of the three pin
specifications, the parallel-length check, then one connect per triple. -/
def parse3core (inp : Input) (h : Harness) (f v t : String) (fs vs ts : PinSpec) :
    Except PyError Harness :=
  if !check_designators inp [f, v, t] [.connectors, .cables, .connectors] then
    .error .badConnection3
  else
    match expandPy fs with
    | .error e => .error e
    | .ok from_pins =>
      match expandPy vs with
      | .error e => .error e
      | .ok via_pins =>
        match expandPy ts with
        | .error e => .error e
        | .ok to_pins =>
          if from_pins.length ≠ via_pins.length ∨ via_pins.length ≠ to_pins.length then
            .error .listLengthMismatch
          else connect3Fold f v t h (zip3 from_pins via_pins to_pins)

/-- A whole 3-element connection record (wireviz.py lines 519–541): key-count
checks on the three dict elements, then `parse3core`. -/
def parse3 (inp : Input) (h : Harness) (c0 c1 c2 : List (String × PinSpec)) :
    Except PyError Harness :=
  if c0.length ≠ 1 then .error .tooManyKeys
  else if c1.length ≠ 1 then .error .tooManyKeys
  else if c2.length ≠ 1 then .error .tooManyKeys
  else
    match c0, c1, c2 with
    | (f, fs) :: _, (v, vs) :: _, (t, ts) :: _ => parse3core inp h f v t fs vs ts
    | _, _, _ => .error .indexError

/-- The connections of the cable named `n` in the harness. -/
def cableConns (h : Harness) (n : String) : List Connection :=
  match alGet h.cables n with
  | some c => c.connections
  | none => []

/-- Whether pin `p` of connector `n` is marked active (`visible_pins[p] is
True`). -/
def pinActiveB (h : Harness) (n : String) (p : Scalar) : Bool :=
  match alGet h.connectors n with
  | none => false
  | some c =>
    match alGet c.visible_pins (some p) with
    | some b => b
    | none => false

/-! Association-list facts. -/

section AListLemmas

variable {κ α : Type} [DecidableEq κ]

lemma alGet_alSet_self (l : List (κ × α)) (k : κ) (v : α) :
    alGet (alSet l k v) k = some v := by
  induction l with
  | nil => simp [alSet, alGet]
  | cons kv rest ih =>
    obtain ⟨k', v'⟩ := kv
    by_cases hk : k' = k
    · simp [alSet, hk, alGet]
    · simp [alSet, hk, alGet, ih]

lemma alGet_alSet_ne (l : List (κ × α)) {k m : κ} (v : α) (hne : m ≠ k) :
    alGet (alSet l k v) m = alGet l m := by
  have hkm : ¬ (k = m) := fun h => hne h.symm
  induction l with
  | nil => simp [alSet, alGet, hkm]
  | cons kv rest ih =>
    obtain ⟨k', v'⟩ := kv
    by_cases hk : k' = k
    · subst hk
      simp [alSet, alGet, hkm]
    · simp [alSet, alGet, hk, ih]

lemma alHas_alSet (l : List (κ × α)) (k m : κ) (v : α) :
    alHas (alSet l k v) m = (alHas l m || decide (m = k)) := by
  by_cases hm : m = k
  · subst hm
    unfold alHas
    rw [alGet_alSet_self]
    simp
  · unfold alHas
    rw [alGet_alSet_ne _ _ hm]
    simp [hm]

lemma alHas_cons (k' : κ) (v' : α) (rest : List (κ × α)) (k : κ) :
    alHas ((k', v') :: rest) k = (decide (k' = k) || alHas rest k) := by
  unfold alHas
  rw [show alGet ((k', v') :: rest) k = if k' = k then some v' else alGet rest k from rfl]
  by_cases hk : k' = k <;> simp [hk]

lemma alSet_fresh (l : List (κ × α)) (k : κ) (v : α) (h : alHas l k = false) :
    alSet l k v = l ++ [(k, v)] := by
  induction l with
  | nil => rfl
  | cons kv rest ih =>
    obtain ⟨k', v'⟩ := kv
    rw [alHas_cons] at h
    have hk : ¬ (k' = k) := by
      intro he
      simp [he] at h
    have hrest : alHas rest k = false := by
      simp [hk] at h
      exact h
    simp [alSet, hk, ih hrest]

lemma alGet_append_right (l1 l2 : List (κ × α)) (k : κ) (h : alHas l1 k = false) :
    alGet (l1 ++ l2) k = alGet l2 k := by
  induction l1 with
  | nil => rfl
  | cons kv rest ih =>
    obtain ⟨k', v'⟩ := kv
    rw [alHas_cons] at h
    have hk : ¬ (k' = k) := by
      intro he
      simp [he] at h
    have hrest : alHas rest k = false := by
      simp [hk] at h
      exact h
    simp [alGet, hk, ih hrest]

lemma alGet_append_left (l1 l2 : List (κ × α)) (k : κ) (h : alHas l1 k = true) :
    alGet (l1 ++ l2) k = alGet l1 k := by
  induction l1 with
  | nil => simp [alHas, alGet] at h
  | cons kv rest ih =>
    obtain ⟨k', v'⟩ := kv
    by_cases hk : k' = k
    · simp [alGet, hk]
    · rw [alHas_cons] at h
      have hrest : alHas rest k = true := by
        simp [hk] at h
        exact h
      simp [alGet, hk, ih hrest]

lemma alHas_append (l1 l2 : List (κ × α)) (k : κ) :
    alHas (l1 ++ l2) k = (alHas l1 k || alHas l2 k) := by
  induction l1 with
  | nil => simp [alHas, alGet]
  | cons kv rest ih =>
    obtain ⟨k', v'⟩ := kv
    by_cases hk : k' = k
    · simp [alHas_cons, hk]
    · simp only [List.cons_append, alHas_cons, hk, ih]
      simp [Bool.or_assoc]

lemma alSet_append_fresh (l1 : List (κ × α)) (k : κ) (v w : α)
    (h : alHas l1 k = false) :
    alSet (l1 ++ [(k, v)]) k w = l1 ++ [(k, w)] := by
  induction l1 with
  | nil => simp [alSet]
  | cons kv rest ih =>
    obtain ⟨k', v'⟩ := kv
    rw [alHas_cons] at h
    have hk : ¬ (k' = k) := by
      intro he
      simp [he] at h
    have hrest : alHas rest k = false := by
      simp [hk] at h
      exact h
    simp [alSet, hk, ih hrest]

end AListLemmas

/-! Facts about the harness mutation steps. -/

/-- Evaluate `pinActiveB` through its connector lookup. -/
lemma pinActiveB_eq (h : Harness) (n : String) (p : Scalar) :
    pinActiveB h n p =
      (match alGet h.connectors n with
       | none => false
       | some c =>
         match alGet c.visible_pins (some p) with
         | some b => b
         | none => false) := rfl

lemma activateName_cables (h : Harness) (n : String) (pin : Option Scalar) :
    (h.activateName n pin).cables = h.cables := by
  unfold Harness.activateName
  cases alGet h.connectors n <;> rfl

lemma activate_cables (h : Harness) (n? : Option String) (pin : Option Scalar) :
    (h.activate n? pin).cables = h.cables := by
  cases n? with
  | none => rfl
  | some n => exact activateName_cables h n pin

lemma activateName_connectors_has (h : Harness) (n : String) (pin : Option Scalar)
    (m : String) :
    alHas (h.activateName n pin).connectors m = alHas h.connectors m := by
  unfold Harness.activateName
  cases hg : alGet h.connectors n with
  | none => rfl
  | some c =>
    show alHas (alSet h.connectors n (c.activatePin pin)) m = alHas h.connectors m
    rw [alHas_alSet]
    by_cases hm : m = n
    · subst hm
      simp [alHas, hg]
    · simp [hm]

lemma activate_connectors_has (h : Harness) (n? : Option String) (pin : Option Scalar)
    (m : String) :
    alHas (h.activate n? pin).connectors m = alHas h.connectors m := by
  cases n? with
  | none => rfl
  | some n => exact activateName_connectors_has h n pin m

lemma pinActiveB_cables_irrel (h : Harness) (cabs : List (String × Cable))
    (n : String) (p : Scalar) :
    pinActiveB { h with cables := cabs } n p = pinActiveB h n p := rfl

lemma pinActiveB_activateName_mono {h : Harness} {n : String} {p : Scalar}
    (hp : pinActiveB h n p = true) (m : String) (pin : Option Scalar) :
    pinActiveB (h.activateName m pin) n p = true := by
  unfold Harness.activateName
  cases hg : alGet h.connectors m with
  | none => exact hp
  | some c =>
    rw [pinActiveB_eq] at hp ⊢
    show (match alGet (alSet h.connectors m (c.activatePin pin)) n with
          | none => false
          | some c =>
            match alGet c.visible_pins (some p) with
            | some b => b
            | none => false) = true
    by_cases hm : n = m
    · subst hm
      rw [alGet_alSet_self]
      rw [hg] at hp
      unfold Connector.activatePin
      show (match alGet (alSet c.visible_pins pin true) (some p) with
            | some b => b
            | none => false) = true
      by_cases hpin : (some p : Option Scalar) = pin
      · rw [← hpin, alGet_alSet_self]
      · rw [alGet_alSet_ne _ _ hpin]
        exact hp
    · rw [alGet_alSet_ne _ _ hm]
      exact hp

lemma pinActiveB_activate_mono {h : Harness} {n : String} {p : Scalar}
    (hp : pinActiveB h n p = true) (n? : Option String) (pin : Option Scalar) :
    pinActiveB (h.activate n? pin) n p = true := by
  cases n? with
  | none => exact hp
  | some m => exact pinActiveB_activateName_mono hp m pin

lemma pinActiveB_activateName_self {h : Harness} {n : String} {p : Scalar}
    (hn : alHas h.connectors n = true) :
    pinActiveB (h.activateName n (some p)) n p = true := by
  obtain ⟨c, hg⟩ := Option.isSome_iff_exists.mp hn
  unfold Harness.activateName
  rw [hg]
  rw [pinActiveB_eq]
  show (match alGet (alSet h.connectors n (c.activatePin (some p))) n with
        | none => false
        | some c =>
          match alGet c.visible_pins (some p) with
          | some b => b
          | none => false) = true
  rw [alGet_alSet_self]
  unfold Connector.activatePin
  show (match alGet (alSet c.visible_pins (some p) true) (some p) with
        | some b => b
        | none => false) = true
  rw [alGet_alSet_self]

/-- One `Harness.connect` call on a present cable: the new `Connection` is
appended to that cable, connector presence is unchanged, previously active
pins stay active, and a present endpoint connector has its endpoint pin
activated. -/
lemma connect_ok {h : Harness} {v : String} {c : Cable}
    (hgc : alGet h.cables v = some c)
    (fn : Option String) (fp : Option Scalar) (vp : Scalar)
    (tn : Option String) (tp : Option Scalar) :
    ∃ h', h.connect fn fp v vp tn tp = .ok h' ∧
      h'.cables = alSet h.cables v (c.connectOne fn fp vp tn tp) ∧
      (∀ m, alHas h'.connectors m = alHas h.connectors m) ∧
      (∀ n p, pinActiveB h n p = true → pinActiveB h' n p = true) ∧
      (∀ n p, fn = some n → fp = some p → alHas h.connectors n = true →
        pinActiveB h' n p = true) ∧
      (∀ n p, tn = some n → tp = some p → alHas h.connectors n = true →
        pinActiveB h' n p = true) := by
  have hred : h.connect fn fp v vp tn tp =
      .ok ((({ h with cables := alSet h.cables v (c.connectOne fn fp vp tn tp) } : Harness).activate
            fn fp).activate tn tp) := by
    unfold Harness.connect
    rw [hgc]
  set h1 : Harness := { h with cables := alSet h.cables v (c.connectOne fn fp vp tn tp) } with hh1
  refine ⟨_, hred, ?_, ?_, ?_, ?_, ?_⟩
  · rw [activate_cables, activate_cables]
  · intro m
    rw [activate_connectors_has, activate_connectors_has]
  · intro n p hp
    have hp1 : pinActiveB h1 n p = true := hp
    exact pinActiveB_activate_mono (pinActiveB_activate_mono hp1 fn fp) tn tp
  · intro n p hfn hfp hhas
    subst hfn hfp
    have hhas1 : alHas h1.connectors n = true := hhas
    have h2 : pinActiveB (h1.activate (some n) (some p)) n p = true :=
      pinActiveB_activateName_self hhas1
    exact pinActiveB_activate_mono h2 tn tp
  · intro n p htn htp hhas
    subst htn htp
    have hhas1 : alHas (h1.activate fn fp).connectors n = true := by
      rw [activate_connectors_has]
      exact hhas
    exact pinActiveB_activateName_self hhas1

lemma zip3_length {α β γ : Type} : ∀ (as : List α) (bs : List β) (cs : List γ),
    as.length = bs.length → bs.length = cs.length →
    (zip3 as bs cs).length = as.length
  | [], [], [], _, _ => rfl
  | [], _ :: _, _, h, _ => by simp at h
  | _ :: _, [], _, h, _ => by simp at h
  | _ :: _, _ :: _, [], _, h => by simp at h
  | _ :: as, _ :: bs, _ :: cs, h1, h2 => by
      show (zip3 as bs cs).length + 1 = as.length + 1
      rw [zip3_length as bs cs (by simpa using h1) (by simpa using h2)]

/-- The loop of the 3-element branch: all connections appended in order, all
endpoint pins activated, earlier activations preserved. -/
lemma connect3Fold_ok {f v t : String} :
    ∀ (triples : List (Scalar × Scalar × Scalar)) (h : Harness),
    alHas h.cables v = true → alHas h.connectors f = true → alHas h.connectors t = true →
    ∃ h', connect3Fold f v t h triples = .ok h' ∧
      cableConns h' v = cableConns h v ++
        triples.map (fun x => (⟨some f, some x.1, x.2.1, some t, some x.2.2⟩ : Connection)) ∧
      (∀ x ∈ triples, pinActiveB h' f x.1 = true ∧ pinActiveB h' t x.2.2 = true) ∧
      (∀ n p, pinActiveB h n p = true → pinActiveB h' n p = true) := by
  intro triples
  induction triples with
  | nil =>
    intro h hv hf ht
    exact ⟨h, rfl, by simp, by simp, fun n p hp => hp⟩
  | cons x rest ih =>
    intro h hv hf ht
    obtain ⟨fp, vp, tp⟩ := x
    obtain ⟨c, hgc⟩ := Option.isSome_iff_exists.mp hv
    obtain ⟨h1, hconn, hcab, hhas, hmono, hactf, hactt⟩ :=
      connect_ok hgc (some f) (some fp) vp (some t) (some tp)
    have hv1 : alHas h1.cables v = true := by
      unfold alHas
      rw [hcab, alGet_alSet_self]
      rfl
    have hf1 : alHas h1.connectors f = true := by rw [hhas f]; exact hf
    have ht1 : alHas h1.connectors t = true := by rw [hhas t]; exact ht
    obtain ⟨h2, hfold, hconns2, hact2, hmono2⟩ := ih h1 hv1 hf1 ht1
    have hc1 : cableConns h1 v =
        cableConns h v ++ [(⟨some f, some fp, vp, some t, some tp⟩ : Connection)] := by
      unfold cableConns
      rw [hcab, alGet_alSet_self, hgc]
      rfl
    refine ⟨h2, ?_, ?_, ?_, ?_⟩
    · show (match h.connect (some f) (some fp) v vp (some t) (some tp) with
            | .error e => Except.error e
            | .ok h' => connect3Fold f v t h' rest) = .ok h2
      rw [hconn]
      exact hfold
    · rw [hconns2, hc1]
      simp
    · intro y hy
      rcases List.mem_cons.mp hy with hy | hy'
      · subst hy
        exact ⟨hmono2 _ _ (hactf f fp rfl rfl hf), hmono2 _ _ (hactt t tp rfl rfl ht)⟩
      · exact hact2 y hy'
    · intro n p hp
      exact hmono2 _ _ (hmono _ _ hp)

/-- C5: for a 3-element record, (i) the roles must resolve as (connector,
cable, connector) or the record is rejected as a bad 3-element definition;
(ii) the three pin expansions must have equal lengths, a mismatch (such as a
from-expansion of length 2 against a via-expansion of length 3) being the
fatal list-length-mismatch error; (iii) on a valid record, exactly one
Connection per index is appended, pairing from-pin[i], via-pin[i], to-pin[i],
and every from/to pin of both referenced connectors is marked active. -/
theorem parse3_record_spec :
    (∀ inp h f fs v vs t ts,
      check_designators inp [f, v, t] [.connectors, .cables, .connectors] = false →
      parse3 inp h [(f, fs)] [(v, vs)] [(t, ts)] = .error .badConnection3) ∧
    (∀ inp h f fs v vs t ts fps vps tps,
      check_designators inp [f, v, t] [.connectors, .cables, .connectors] = true →
      expandPy fs = .ok fps → expandPy vs = .ok vps → expandPy ts = .ok tps →
      ¬(fps.length = vps.length ∧ vps.length = tps.length) →
      parse3 inp h [(f, fs)] [(v, vs)] [(t, ts)] = .error .listLengthMismatch) ∧
    (∀ inp h f fs v vs t ts fps vps tps,
      check_designators inp [f, v, t] [.connectors, .cables, .connectors] = true →
      expandPy fs = .ok fps → expandPy vs = .ok vps → expandPy ts = .ok tps →
      fps.length = vps.length → vps.length = tps.length →
      alHas h.cables v = true → alHas h.connectors f = true → alHas h.connectors t = true →
      ∃ h', parse3 inp h [(f, fs)] [(v, vs)] [(t, ts)] = .ok h' ∧
        (zip3 fps vps tps).length = fps.length ∧
        cableConns h' v = cableConns h v ++
          (zip3 fps vps tps).map
            (fun x => (⟨some f, some x.1, x.2.1, some t, some x.2.2⟩ : Connection)) ∧
        (∀ x ∈ zip3 fps vps tps,
          pinActiveB h' f x.1 = true ∧ pinActiveB h' t x.2.2 = true)) := by
  have hsingle : ∀ inp h f (fs : PinSpec) v vs t ts,
      parse3 inp h [(f, fs)] [(v, vs)] [(t, ts)] = parse3core inp h f v t fs vs ts := by
    intro inp h f fs v vs t ts
    rfl
  refine ⟨?_, ?_, ?_⟩
  · intro inp h f fs v vs t ts hchk
    rw [hsingle]
    unfold parse3core
    rw [hchk]
    rfl
  · intro inp h f fs v vs t ts fps vps tps hchk hfs hvs hts hne
    rw [hsingle]
    unfold parse3core
    rw [hchk, hfs, hvs, hts]
    show (if fps.length ≠ vps.length ∨ vps.length ≠ tps.length then
            Except.error PyError.listLengthMismatch
          else connect3Fold f v t h (zip3 fps vps tps)) = .error .listLengthMismatch
    rw [if_pos (by tauto)]
  · intro inp h f fs v vs t ts fps vps tps hchk hfs hvs hts hl1 hl2 hv hf ht
    obtain ⟨h', hfold, hconns, hact, -⟩ := connect3Fold_ok (zip3 fps vps tps) h hv hf ht
    refine ⟨h', ?_, zip3_length fps vps tps hl1 hl2, hconns, hact⟩
    rw [hsingle]
    unfold parse3core
    rw [hchk, hfs, hvs, hts]
    show (if fps.length ≠ vps.length ∨ vps.length ≠ tps.length then
            Except.error PyError.listLengthMismatch
          else connect3Fold f v t h (zip3 fps vps tps)) = .ok h'
    rw [if_neg (by tauto)]
    exact hfold

def xConn : Connector :=
  ⟨"X1", none, none, none, 2, [.str "", .str ""], false, false, false, [], []⟩

def wCable : Cable := ⟨"W1", none, none, none, 0, 2, false, ["red", "black"], []⟩

def inp35 : Input := ⟨["X1"], ["W1"], []⟩

def harness35 : Harness := ⟨[("X1", xConn)], [("W1", wCable)]⟩

def spec12 : PinSpec := Sum.inr [.int 1, .int 2]

/-- Witness for `parse3_record_spec` (the spec's end-to-end example: connector
`X1` with 2 pins, cable `W1` with 2 wires, record
`[{X1: [1,2]}, {W1: [1,2]}, {X1: [1,2]}]`). -/
theorem parse3_record_spec_witness :
    ∃ h', parse3 inp35 harness35 [("X1", spec12)] [("W1", spec12)] [("X1", spec12)] = .ok h' ∧
      (zip3 [Scalar.int 1, Scalar.int 2] [Scalar.int 1, Scalar.int 2]
        [Scalar.int 1, Scalar.int 2]).length = ([Scalar.int 1, Scalar.int 2] : List Scalar).length ∧
      cableConns h' "W1" = cableConns harness35 "W1" ++
        (zip3 [Scalar.int 1, Scalar.int 2] [Scalar.int 1, Scalar.int 2]
          [Scalar.int 1, Scalar.int 2]).map
          (fun x => (⟨some "X1", some x.1, x.2.1, some "X1", some x.2.2⟩ : Connection)) ∧
      (∀ x ∈ zip3 [Scalar.int 1, Scalar.int 2] [Scalar.int 1, Scalar.int 2]
          [Scalar.int 1, Scalar.int 2],
        pinActiveB h' "X1" x.1 = true ∧ pinActiveB h' "X1" x.2.2 = true) :=
  parse3_record_spec.2.2 inp35 harness35 "X1" spec12 "W1" spec12 "X1" spec12
    [.int 1, .int 2] [.int 1, .int 2] [.int 1, .int 2]
    (by decide) rfl rfl rfl rfl rfl (by decide) (by decide) (by decide)

/-! ## Ferrule synthesis (C6) -/

/-- The connector `Connector('_F<n>', category='ferrule', **ferrule_params)`
evaluates to when `__post_init__` succeeds (the template carries no
conflicting pinout/pincount pair). -/
def ferruleMk (fid : String) (p : ConnectorParams) : Connector :=
  if !p.pinout.isEmpty then
    ⟨fid, some "ferrule", p.type, p.subtype, (p.pinout.length : Int), p.pinout,
     p.hide_disconnected_pins, false, false, [], []⟩
  else
    let pc : Int :=
      match p.pincount with
      | none => 1
      | some k => if k = 0 then 1 else k
    ⟨fid, some "ferrule", p.type, p.subtype, pc, List.replicate pc.toNat (.str ""),
     p.hide_disconnected_pins, false, false, [], []⟩

/-- The synthesized ferrule instance after its pin 1 has been activated by
`Harness.connect`. -/
def ferruleInstance (fid : String) (p : ConnectorParams) : Connector :=
  { ferruleMk fid p with visible_pins := [(some (.int 1), true)] }

/-- The auto-incremented identifiers `_F<counter+1>, _F<counter+2>, ...`
consumed by a run of the ferrule loop. -/
def ferruleNames (counter : Nat) : List Scalar → List String
  | [] => []
  | _ :: rest => ("_F" ++ toString (counter + 1)) :: ferruleNames (counter + 1) rest

/-- The connector entries appended by a run of the ferrule loop. -/
def ferruleAdds (params : ConnectorParams) (counter : Nat) :
    List Scalar → List (String × Connector)
  | [] => []
  | _ :: rest =>
    ("_F" ++ toString (counter + 1), ferruleInstance ("_F" ++ toString (counter + 1)) params) ::
      ferruleAdds params (counter + 1) rest

/-- The connection emitted for one synthesized ferrule, in the direction of
the matched pattern. -/
def ferruleConn (ferCbl : Bool) (fid : String) (pin : Scalar) : Connection :=
  if ferCbl then ⟨some fid, some (.int 1), pin, none, none⟩
  else ⟨none, none, pin, some fid, some (.int 1)⟩

/-- The connections appended by a run of the ferrule loop. -/
def ferruleConnsList (ferCbl : Bool) (counter : Nat) : List Scalar → List Connection
  | [] => []
  | pin :: rest =>
    ferruleConn ferCbl ("_F" ++ toString (counter + 1)) pin ::
      ferruleConnsList ferCbl (counter + 1) rest

lemma mkConnector_ferrule (fid : String) (p : ConnectorParams)
    (hp : p.pinout = [] ∨ p.pincount = none) :
    mkConnector fid { p with category := some "ferrule" } = .ok (ferruleMk fid p) := by
  obtain ⟨cat, ty, sub, pc, po, hd⟩ := p
  rcases hp with hp | hp
  · subst hp
    rfl
  · subst hp
    simp only [mkConnector, ferruleMk]
    split <;> rfl

lemma ferruleMk_visible (fid : String) (p : ConnectorParams) :
    (ferruleMk fid p).visible_pins = [] := by
  unfold ferruleMk
  split <;> rfl

lemma ferruleMk_activate (fid : String) (p : ConnectorParams) :
    (ferruleMk fid p).activatePin (some (.int 1)) = ferruleInstance fid p := by
  unfold Connector.activatePin ferruleInstance
  rw [ferruleMk_visible]
  rfl

lemma alSet_alSet {κ α : Type} [DecidableEq κ] (l : List (κ × α)) (k : κ) (v w : α) :
    alSet (alSet l k v) k w = alSet l k w := by
  induction l with
  | nil => simp [alSet]
  | cons kv rest ih =>
    obtain ⟨k', v'⟩ := kv
    by_cases hk : k' = k
    · simp [alSet, hk]
    · simp [alSet, hk, ih]

/-- `activateName` on a connector known to be present. -/
lemma activateName_known {h : Harness} {n : String} {c : Connector}
    (hg : alGet h.connectors n = some c) (pin : Option Scalar) :
    h.activateName n pin =
      { h with connectors := alSet h.connectors n (c.activatePin pin) } := by
  unfold Harness.activateName
  rw [hg]

/-- Harness extensionality. -/
lemma Harness.ext' (a b : Harness) (h1 : a.connectors = b.connectors)
    (h2 : a.cables = b.cables) : a = b := by
  cases a
  cases b
  cases h1
  cases h2
  rfl

/-- One iteration of the ferrule loop, on a harness whose connectors do not
yet contain `fid`: the instance is appended with its pin 1 active, and the
directed connection is appended to the cable. -/
lemma ferrule_step {h : Harness} {cn : String} {c : Cable} {fid : String}
    {params : ConnectorParams} (ferCbl : Bool) (pin : Scalar)
    (hgc : alGet h.cables cn = some c)
    (hfr : alHas h.connectors fid = false)
    (hp : params.pinout = [] ∨ params.pincount = none) :
    ∃ h2,
      (match h.addConnector fid { params with category := some "ferrule" } with
       | .error e => Except.error e
       | .ok h1 =>
         (if ferCbl then h1.connect (some fid) (some (.int 1)) cn pin none none
          else h1.connect none none cn pin (some fid) (some (.int 1)))) = .ok h2 ∧
      h2.connectors = h.connectors ++ [(fid, ferruleInstance fid params)] ∧
      h2.cables = alSet h.cables cn
        { c with connections := c.connections ++ [ferruleConn ferCbl fid pin] } := by
  rw [show h.addConnector fid { params with category := some "ferrule" } =
      .ok { h with connectors := alSet h.connectors fid (ferruleMk fid params) } by
    unfold Harness.addConnector
    rw [mkConnector_ferrule fid params hp]]
  refine ⟨⟨h.connectors ++ [(fid, ferruleInstance fid params)],
           alSet h.cables cn { c with connections := c.connections ++ [ferruleConn ferCbl fid pin] }⟩,
          ?_, rfl, rfl⟩
  have hconnset : alSet (alSet h.connectors fid (ferruleMk fid params)) fid
      ((ferruleMk fid params).activatePin (some (.int 1))) =
      h.connectors ++ [(fid, ferruleInstance fid params)] := by
    rw [alSet_alSet, ferruleMk_activate]
    exact alSet_fresh _ _ _ hfr
  cases ferCbl with
  | true =>
    show Harness.connect { h with connectors := alSet h.connectors fid (ferruleMk fid params) } (some fid) (some (.int 1)) cn pin none none = _
    unfold Harness.connect
    rw [show alGet ({ h with connectors := alSet h.connectors fid (ferruleMk fid params) } : Harness).cables cn = some c from hgc]
    have heq : ((⟨alSet h.connectors fid (ferruleMk fid params), alSet h.cables cn (c.connectOne (some fid) (some (Scalar.int 1)) pin none none)⟩ : Harness).activateName fid (some (Scalar.int 1))) = (⟨h.connectors ++ [(fid, ferruleInstance fid params)], alSet h.cables cn { c with connections := c.connections ++ [ferruleConn true fid pin] }⟩ : Harness) := by
      apply Harness.ext'
      · simp only [Harness.activateName, alGet_alSet_self]
        exact hconnset
      · simp only [Harness.activateName, alGet_alSet_self]
        rfl
    exact congrArg Except.ok heq
  | false =>
    show Harness.connect { h with connectors := alSet h.connectors fid (ferruleMk fid params) } none none cn pin (some fid) (some (.int 1)) = _
    unfold Harness.connect
    rw [show alGet ({ h with connectors := alSet h.connectors fid (ferruleMk fid params) } : Harness).cables cn = some c from hgc]
    have heq : ((⟨alSet h.connectors fid (ferruleMk fid params), alSet h.cables cn (c.connectOne none none pin (some fid) (some (Scalar.int 1)))⟩ : Harness).activateName fid (some (Scalar.int 1))) = (⟨h.connectors ++ [(fid, ferruleInstance fid params)], alSet h.cables cn { c with connections := c.connections ++ [ferruleConn false fid pin] }⟩ : Harness) := by
      apply Harness.ext'
      · simp only [Harness.activateName, alGet_alSet_self]
        exact hconnset
      · simp only [Harness.activateName, alGet_alSet_self]
        rfl
    exact congrArg Except.ok heq

/-- Unfolding of one ferrule-loop iteration for a template that declares no
`category` key (a category-bearing template instead raises the
duplicate-keyword TypeError at the `add_connector` call). -/
lemma ferruleFold_cons_none {cn : String} {params : ConnectorParams} {ferCbl : Bool}
    (hcat : params.category = none) (h : Harness) (counter : Nat) (pin : Scalar)
    (rest : List Scalar) :
    ferruleFold cn params ferCbl h counter (pin :: rest) =
      (match h.addConnector ("_F" ++ toString (counter + 1))
          { params with category := some "ferrule" } with
       | .error e => .error e
       | .ok h1 =>
         match (if ferCbl then h1.connect (some ("_F" ++ toString (counter + 1)))
                  (some (.int 1)) cn pin none none
                else h1.connect none none cn pin
                  (some ("_F" ++ toString (counter + 1))) (some (.int 1))) with
         | .error e => .error e
         | .ok h2 => ferruleFold cn params ferCbl h2 (counter + 1) rest) := by
  show (match params.category with
        | some _ => (Except.error PyError.typeError : Except PyError (Harness × Nat))
        | none =>
          match h.addConnector ("_F" ++ toString (counter + 1))
              { params with category := some "ferrule" } with
          | .error e => .error e
          | .ok h1 =>
            match (if ferCbl then h1.connect (some ("_F" ++ toString (counter + 1)))
                     (some (.int 1)) cn pin none none
                   else h1.connect none none cn pin
                     (some ("_F" ++ toString (counter + 1))) (some (.int 1))) with
            | .error e => .error e
            | .ok h2 => ferruleFold cn params ferCbl h2 (counter + 1) rest) = _
  rw [hcat]

/-- The whole ferrule loop on `k` cable pins, for a template without a
`category` key: the counter advances by `k`, exactly the `k` instances
`_F<counter+1> ... _F<counter+k>` are appended to the harness connectors
(each a fresh name), and exactly `k` directed connections are appended to
the cable. -/
lemma ferruleFold_ok {cn : String} {params : ConnectorParams} {ferCbl : Bool}
    (hp : params.pinout = [] ∨ params.pincount = none)
    (hcat : params.category = none) :
    ∀ (pins : List Scalar) (h : Harness) (counter : Nat),
    alHas h.cables cn = true →
    (∀ x ∈ ferruleNames counter pins, alHas h.connectors x = false) →
    (ferruleNames counter pins).Nodup →
    ∃ h', ferruleFold cn params ferCbl h counter pins = .ok (h', counter + pins.length) ∧
      h'.connectors = h.connectors ++ ferruleAdds params counter pins ∧
      cableConns h' cn = cableConns h cn ++ ferruleConnsList ferCbl counter pins := by
  intro pins
  induction pins with
  | nil =>
    intro h counter hv _ _
    exact ⟨h, rfl, by simp [ferruleAdds], by simp [ferruleConnsList]⟩
  | cons pin rest ih =>
    intro h counter hv hfresh hnodup
    obtain ⟨c, hgc⟩ := Option.isSome_iff_exists.mp hv
    have hfr : alHas h.connectors ("_F" ++ toString (counter + 1)) = false :=
      hfresh _ (by simp [ferruleNames])
    obtain ⟨h2, hstep, hc2, hcab2⟩ := ferrule_step (h := h) ferCbl pin hgc hfr hp
    have hv2 : alHas h2.cables cn = true := by
      unfold alHas
      rw [hcab2, alGet_alSet_self]
      rfl
    have hnames : ferruleNames counter (pin :: rest) =
        ("_F" ++ toString (counter + 1)) :: ferruleNames (counter + 1) rest := rfl
    have hfresh2 : ∀ x ∈ ferruleNames (counter + 1) rest, alHas h2.connectors x = false := by
      intro x hx
      rw [hc2, alHas_append]
      have hh : alHas h.connectors x = false := by
        apply hfresh
        rw [hnames]
        exact List.mem_cons_of_mem _ hx
      have hxne : x ≠ "_F" ++ toString (counter + 1) := by
        rw [hnames] at hnodup
        intro hxe
        exact (List.nodup_cons.mp hnodup).1 (hxe ▸ hx)
      rw [hh]
      simp [alHas_cons, alHas, alGet, Ne.symm hxne]
    have hnodup2 : (ferruleNames (counter + 1) rest).Nodup := by
      rw [hnames] at hnodup
      exact (List.nodup_cons.mp hnodup).2
    obtain ⟨h', hfold, hc', hcab'⟩ := ih h2 (counter + 1) hv2 hfresh2 hnodup2
    have harith : counter + 1 + rest.length = counter + (rest.length + 1) := by omega
    rw [harith] at hfold
    refine ⟨h', ?_, ?_, ?_⟩
    · rw [ferruleFold_cons_none hcat h counter pin rest]
      show (match h.addConnector ("_F" ++ toString (counter + 1)) { params with category := some "ferrule" } with
            | .error e => Except.error e
            | .ok h1 =>
              match (if ferCbl then h1.connect (some ("_F" ++ toString (counter + 1))) (some (.int 1)) cn pin none none
                     else h1.connect none none cn pin (some ("_F" ++ toString (counter + 1))) (some (.int 1))) with
              | .error e => Except.error e
              | .ok h2 => ferruleFold cn params ferCbl h2 (counter + 1) rest) =
          .ok (h', counter + (rest.length + 1))
      cases hadd : h.addConnector ("_F" ++ toString (counter + 1)) { params with category := some "ferrule" } with
      | error e =>
        rw [hadd] at hstep
        exact absurd hstep (by simp)
      | ok h1 =>
        rw [hadd] at hstep
        have hstep' : (if ferCbl then h1.connect (some ("_F" ++ toString (counter + 1))) (some (.int 1)) cn pin none none
            else h1.connect none none cn pin (some ("_F" ++ toString (counter + 1))) (some (.int 1))) = .ok h2 := hstep
        show (match (if ferCbl then h1.connect (some ("_F" ++ toString (counter + 1))) (some (.int 1)) cn pin none none
                     else h1.connect none none cn pin (some ("_F" ++ toString (counter + 1))) (some (.int 1))) with
              | .error e => Except.error e
              | .ok h2 => ferruleFold cn params ferCbl h2 (counter + 1) rest) =
            .ok (h', counter + (rest.length + 1))
        rw [hstep']
        exact hfold
    · rw [hc', hc2, List.append_assoc]
      rfl
    · rw [hcab']
      have hcc2 : cableConns h2 cn =
          cableConns h cn ++ [ferruleConn ferCbl ("_F" ++ toString (counter + 1)) pin] := by
        unfold cableConns
        rw [hcab2, alGet_alSet_self, hgc]
      rw [hcc2, List.append_assoc]
      rfl

lemma normElem_keyCheck {e : RecElem} {x : String × PinSpec} (hn : normElem e = [x]) :
    elemKeyCheck e = .ok () := by
  cases e with
  | bare s => rfl
  | dict es =>
    show (if es.length ≠ 1 then Except.error PyError.tooManyKeys else Except.ok ()) = .ok ()
    have hes : es = [x] := hn
    rw [hes]
    rfl

lemma parse2_norm {inp : Input} {h : Harness} {counter : Nat} {e0 e1 : RecElem}
    {fn tn : String} {fs ts : PinSpec}
    (hn0 : normElem e0 = [(fn, fs)]) (hn1 : normElem e1 = [(tn, ts)]) :
    parse2 inp h counter e0 e1 = parse2core inp h counter fn tn fs ts := by
  unfold parse2
  rw [normElem_keyCheck hn0, normElem_keyCheck hn1, hn0, hn1]

lemma ferruleAdds_length (params : ConnectorParams) :
    ∀ (counter : Nat) (pins : List Scalar),
    (ferruleAdds params counter pins).length = pins.length := by
  intro counter pins
  induction pins generalizing counter with
  | nil => rfl
  | cons pin rest ih =>
    show (ferruleAdds params (counter + 1) rest).length + 1 = rest.length + 1
    rw [ih]

lemma ferruleAdds_names (params : ConnectorParams) :
    ∀ (counter : Nat) (pins : List Scalar),
    (ferruleAdds params counter pins).map Prod.fst = ferruleNames counter pins := by
  intro counter pins
  induction pins generalizing counter with
  | nil => rfl
  | cons pin rest ih =>
    show ("_F" ++ toString (counter + 1)) :: (ferruleAdds params (counter + 1) rest).map Prod.fst =
      ("_F" ++ toString (counter + 1)) :: ferruleNames (counter + 1) rest
    rw [ih]

lemma ferruleConnsList_length (ferCbl : Bool) :
    ∀ (counter : Nat) (pins : List Scalar),
    (ferruleConnsList ferCbl counter pins).length = pins.length := by
  intro counter pins
  induction pins generalizing counter with
  | nil => rfl
  | cons pin rest ih =>
    show (ferruleConnsList ferCbl (counter + 1) rest).length + 1 = rest.length + 1
    rw [ih]

lemma ferruleMk_category (fid : String) (p : ConnectorParams) :
    (ferruleMk fid p).category = some "ferrule" := by
  unfold ferruleMk
  split <;> rfl

lemma ferruleAdds_mem (params : ConnectorParams) :
    ∀ (counter : Nat) (pins : List Scalar) (x : String × Connector),
    x ∈ ferruleAdds params counter pins →
    x.2.category = some "ferrule" ∧ x.2.visible_pins = [(some (.int 1), true)] := by
  intro counter pins
  induction pins generalizing counter with
  | nil => intro x hx; simp [ferruleAdds] at hx
  | cons pin rest ih =>
    intro x hx
    rcases List.mem_cons.mp hx with hx | hx
    · subst hx
      refine ⟨?_, rfl⟩
      show (ferruleInstance _ params).category = some "ferrule"
      unfold ferruleInstance
      rw [show ({ ferruleMk ("_F" ++ toString (counter + 1)) params with
            visible_pins := [(some (.int 1), true)] } : Connector).category =
          (ferruleMk ("_F" ++ toString (counter + 1)) params).category from rfl]
      exact ferruleMk_category _ _
    · exact ih (counter + 1) x hx

/-- C6: a 2-element record matching the ferrule↔cable pattern (in either
direction) whose cable pin specification expands to `k` pins synthesizes
exactly `k` new connector instances named `_F<counter+1> … _F<counter+k>`
(`ferruleAdds`, each fresh by hypothesis, of category ferrule with exactly
pin 1 marked active) and appends exactly `k` connections to the cable
(`ferruleConnsList`, one per cable pin, in the direction of the pattern).
The template must declare no `category` key: `add_connector(ferrule_id,
category='ferrule', **ferrule_params)` raises the duplicate-keyword
TypeError otherwise, which `ferruleFold` models. -/
theorem parse2_ferrule_synthesis :
    (∀ (inp : Input) (h : Harness) (counter : Nat) (e0 e1 : RecElem) (fn tn : String)
        (fs ts : PinSpec) (params : ConnectorParams) (tps : List Scalar),
      normElem e0 = [(fn, fs)] → normElem e1 = [(tn, ts)] →
      alGet inp.ferrules fn = some params →
      inp.cables.contains tn = true →
      inp.connectors.contains fn = false →
      inp.cables.contains fn = false →
      (∃ fps, expandPy fs = .ok fps) →
      expandPy ts = .ok tps →
      (params.pinout = [] ∨ params.pincount = none) →
      params.category = none →
      alHas h.cables tn = true →
      (∀ x ∈ ferruleNames counter tps, alHas h.connectors x = false) →
      (ferruleNames counter tps).Nodup →
      ∃ h', parse2 inp h counter e0 e1 = .ok (h', counter + tps.length) ∧
        h'.connectors = h.connectors ++ ferruleAdds params counter tps ∧
        cableConns h' tn = cableConns h tn ++ ferruleConnsList true counter tps) ∧
    (∀ (inp : Input) (h : Harness) (counter : Nat) (e0 e1 : RecElem) (fn tn : String)
        (fs ts : PinSpec) (params : ConnectorParams) (fps : List Scalar),
      normElem e0 = [(fn, fs)] → normElem e1 = [(tn, ts)] →
      alGet inp.ferrules tn = some params →
      inp.cables.contains fn = true →
      alHas inp.ferrules fn = false →
      inp.connectors.contains fn = false →
      inp.cables.contains tn = false →
      inp.connectors.contains tn = false →
      expandPy fs = .ok fps →
      (∃ tps, expandPy ts = .ok tps) →
      (params.pinout = [] ∨ params.pincount = none) →
      params.category = none →
      alHas h.cables fn = true →
      (∀ x ∈ ferruleNames counter fps, alHas h.connectors x = false) →
      (ferruleNames counter fps).Nodup →
      ∃ h', parse2 inp h counter e0 e1 = .ok (h', counter + fps.length) ∧
        h'.connectors = h.connectors ++ ferruleAdds params counter fps ∧
        cableConns h' fn = cableConns h fn ++ ferruleConnsList false counter fps) ∧
    (∀ params counter pins, (ferruleAdds params counter pins).length = pins.length ∧
      (ferruleAdds params counter pins).map Prod.fst = ferruleNames counter pins) ∧
    (∀ ferCbl counter pins, (ferruleConnsList ferCbl counter pins).length = pins.length) ∧
    (∀ params counter pins x, x ∈ ferruleAdds params counter pins →
      x.2.category = some "ferrule" ∧ x.2.visible_pins = [(some (Scalar.int 1), true)]) := by
  refine ⟨?_, ?_, fun params counter pins =>
      ⟨ferruleAdds_length params counter pins, ferruleAdds_names params counter pins⟩,
    fun ferCbl counter pins => ferruleConnsList_length ferCbl counter pins,
    fun params counter pins x hx => ferruleAdds_mem params counter pins x hx⟩
  · intro inp h counter e0 e1 fn tn fs ts params tps hn0 hn1 hfer htncab hfncon hfncab
      hfps hts hp hcat hcable hfresh hnodup
    obtain ⟨fps, hfpsv⟩ := hfps
    rw [parse2_norm hn0 hn1]
    have htn' : tn ∈ inp.cables := by simpa using htncab
    have hfn1 : fn ∉ inp.connectors := by simpa using hfncon
    have hfn2 : fn ∉ inp.cables := by simpa using hfncab
    have hc4 : check_designators inp [fn, tn] [.ferrules, .cables] = true := by
      simp [check_designators, inputHas, alHas, hfer, htn']
    have hc1 : check_designators inp [fn, tn] [.connectors, .cables] = false := by
      simp [check_designators, inputHas, hfn1]
    have hc2 : check_designators inp [fn, tn] [.cables, .connectors] = false := by
      simp [check_designators, inputHas, hfn2]
    have hc3 : check_designators inp [fn, tn] [.connectors, .connectors] = false := by
      simp [check_designators, inputHas, hfn1]
    have hc5 : check_designators inp [fn, tn] [.cables, .ferrules] = false := by
      simp [check_designators, inputHas, hfn2]
    have hred : parse2core inp h counter fn tn fs ts =
        parse2rest inp h counter fn tn fs ts false false false true false := by
      unfold parse2core
      rw [hc1, hc2, hc3, hc4, hc5]
      rfl
    rw [hred]
    have hred2 : parse2rest inp h counter fn tn fs ts false false false true false =
        (match alGet inp.ferrules fn with
         | none => Except.error PyError.keyError
         | some params => ferruleFold tn params true h counter tps) := by
      unfold parse2rest
      rw [hfpsv, hts]
      rfl
    rw [hred2, hfer]
    exact ferruleFold_ok hp hcat tps h counter hcable hfresh hnodup
  · intro inp h counter e0 e1 fn tn fs ts params fps hn0 hn1 hfer hfncab hfnfer hfncon
      htncab htncon hfpsv hts hp hcat hcable hfresh hnodup
    obtain ⟨tps, htsv⟩ := hts
    rw [parse2_norm hn0 hn1]
    have hfn' : fn ∈ inp.cables := by simpa using hfncab
    have hfn1 : fn ∉ inp.connectors := by simpa using hfncon
    have htn1 : tn ∉ inp.cables := by simpa using htncab
    have htn2 : tn ∉ inp.connectors := by simpa using htncon
    have hc5 : check_designators inp [fn, tn] [.cables, .ferrules] = true := by
      simp [check_designators, inputHas, alHas, hfer, hfn']
    have hc1 : check_designators inp [fn, tn] [.connectors, .cables] = false := by
      simp [check_designators, inputHas, hfn1]
    have hc2 : check_designators inp [fn, tn] [.cables, .connectors] = false := by
      simp [check_designators, inputHas, htn2]
    have hc3 : check_designators inp [fn, tn] [.connectors, .connectors] = false := by
      simp [check_designators, inputHas, hfn1]
    have hc4 : check_designators inp [fn, tn] [.ferrules, .cables] = false := by
      simp [check_designators, inputHas, hfnfer, htn1]
    have hred : parse2core inp h counter fn tn fs ts =
        parse2rest inp h counter fn tn fs ts false false false false true := by
      unfold parse2core
      rw [hc1, hc2, hc3, hc4, hc5]
      rfl
    rw [hred]
    have hred2 : parse2rest inp h counter fn tn fs ts false false false false true =
        (match alGet inp.ferrules tn with
         | none => Except.error PyError.keyError
         | some params => ferruleFold fn params false h counter fps) := by
      unfold parse2rest
      rw [hfpsv, htsv]
      rfl
    rw [hred2, hfer]
    exact ferruleFold_ok hp hcat fps h counter hcable hfresh hnodup

def wFer : Cable := ⟨"W", none, none, none, 0, 1, false, ["red"], []⟩

def inpFer : Input := ⟨[], ["W"], [("F", {})]⟩

def harnessFer : Harness := ⟨[], [("W", wFer)]⟩

/-- Witness for `parse2_ferrule_synthesis`: record `[F, {W: 1}]` with ferrule
template `F` and one-wire cable `W`. -/
theorem parse2_ferrule_synthesis_witness :
    ∃ h', parse2 inpFer harnessFer 0 (.bare "F") (.dict [("W", Sum.inl (Scalar.int 1))]) =
        .ok (h', 0 + ([Scalar.int 1] : List Scalar).length) ∧
      h'.connectors = harnessFer.connectors ++ ferruleAdds {} 0 [Scalar.int 1] ∧
      cableConns h' "W" = cableConns harnessFer "W" ++ ferruleConnsList true 0 [Scalar.int 1] :=
  parse2_ferrule_synthesis.1 inpFer harnessFer 0 (.bare "F")
    (.dict [("W", Sum.inl (Scalar.int 1))]) "F" "W" (Sum.inl (Scalar.str "F"))
    (Sum.inl (Scalar.int 1)) {} [Scalar.int 1]
    rfl rfl rfl (by decide) (by decide) (by decide) ⟨[Scalar.str "F"], rfl⟩ rfl
    (Or.inl rfl) rfl (by decide) (by decide) (by decide)

def inpFerCat : Input := ⟨[], ["W"], [("F", { category := some "ferrule" })]⟩

/-- **C6 (counterexample).** A ferrule template that itself declares a
`category` key refutes the unconditional claim: for the record `[F, {W: 1}]`
with template `F = {category: ferrule}`, the call
`h.add_connector(ferrule_id, category='ferrule', **ferrule_params)` raises
`TypeError: got multiple values for keyword argument 'category'` on the
first cable pin, so no instance is synthesized and no connection is made. -/
theorem parse2_ferrule_category_typeerror :
    parse2 inpFerCat harnessFer 0 (.bare "F") (.dict [("W", Sum.inl (Scalar.int 1))]) =
      .error .typeError := by
  decide

/-! ## The five role patterns of 2-element records (C3) -/

/-- Whether at least one of the five role patterns matches, in source order. -/
def anyPattern (inp : Input) (fn tn : String) : Bool :=
  check_designators inp [fn, tn] [.connectors, .cables] ||
  check_designators inp [fn, tn] [.cables, .connectors] ||
  check_designators inp [fn, tn] [.connectors, .connectors] ||
  check_designators inp [fn, tn] [.ferrules, .cables] ||
  check_designators inp [fn, tn] [.cables, .ferrules]

lemma expandElem_err {e : Scalar} {err : PyError} (h : expandElem e = .error err) :
    err = .valueError := by
  unfold expandElem at h
  split at h
  · split at h <;> simp_all
  · split at h <;> simp_all

lemma expandList_err : ∀ {l : List Scalar} {err : PyError},
    expandList l = .error err → err = .valueError := by
  intro l
  induction l with
  | nil => intro err h; simp [expandList] at h
  | cons e rest ih =>
    intro err h
    unfold expandList at h
    split at h
    · rename_i e' he
      cases h
      exact expandElem_err he
    · split at h
      · rename_i e' he
        cases h
        exact ih he
      · cases h

lemma expandPy_err {s : PinSpec} {err : PyError} (h : expandPy s = .error err) :
    err = .valueError := by
  cases s with
  | inl x => exact expandList_err h
  | inr l => exact expandList_err h

lemma connect_err {h : Harness} {fn : Option String} {fp : Option Scalar} {vn : String}
    {vp : Scalar} {tn : Option String} {tp : Option Scalar} {e : PyError}
    (hc : h.connect fn fp vn vp tn tp = .error e) : e = .keyError := by
  unfold Harness.connect at hc
  split at hc <;> simp_all

lemma addLoop_err {h : Harness} {n : String} {fp tp : Scalar} {e : PyError}
    (hc : h.addLoop n fp tp = .error e) : e = .keyError := by
  unfold Harness.addLoop at hc
  split at hc <;> simp_all

lemma mkConnector_err {n : String} {p : ConnectorParams} {e : PyError}
    (hc : mkConnector n p = .error e) : e = .pinoutPincount := by
  unfold mkConnector at hc
  split at hc
  · split at hc <;> simp_all
  · simp_all

lemma addConnector_err {h : Harness} {n : String} {p : ConnectorParams} {e : PyError}
    (hc : h.addConnector n p = .error e) : e = .pinoutPincount := by
  unfold Harness.addConnector at hc
  split at hc
  · rename_i e' he
    cases hc
    exact mkConnector_err he
  · cases hc

lemma conCblFold_ne_wd {f t : String} : ∀ (l : List (Scalar × Scalar)) (h : Harness),
    conCblFold f t h l ≠ .error .wrongDesignators := by
  intro l
  induction l with
  | nil => intro h hc; simp [conCblFold] at hc
  | cons x rest ih =>
    intro h hc
    obtain ⟨fp, tp⟩ := x
    unfold conCblFold at hc
    split at hc
    · rename_i e he
      cases hc
      exact absurd (connect_err he) (by decide)
    · rename_i h' he
      exact ih h' hc

lemma cblConFold_ne_wd {f t : String} : ∀ (l : List (Scalar × Scalar)) (h : Harness),
    cblConFold f t h l ≠ .error .wrongDesignators := by
  intro l
  induction l with
  | nil => intro h hc; simp [cblConFold] at hc
  | cons x rest ih =>
    intro h hc
    obtain ⟨fp, tp⟩ := x
    unfold cblConFold at hc
    split at hc
    · rename_i e he
      cases hc
      exact absurd (connect_err he) (by decide)
    · rename_i h' he
      exact ih h' hc

lemma loopsFold_ne_wd {n : String} : ∀ (l : List (Scalar × Scalar)) (h : Harness),
    loopsFold n h l ≠ .error .wrongDesignators := by
  intro l
  induction l with
  | nil => intro h hc; simp [loopsFold] at hc
  | cons x rest ih =>
    intro h hc
    obtain ⟨fp, tp⟩ := x
    unfold loopsFold at hc
    split at hc
    · rename_i e he
      cases hc
      exact absurd (addLoop_err he) (by decide)
    · rename_i h' he
      exact ih h' hc

lemma ferruleFold_ne_wd {cn : String} {params : ConnectorParams} {ferCbl : Bool} :
    ∀ (pins : List Scalar) (h : Harness) (counter : Nat),
    ferruleFold cn params ferCbl h counter pins ≠ .error .wrongDesignators := by
  intro pins
  induction pins with
  | nil => intro h counter hc; simp [ferruleFold] at hc
  | cons pin rest ih =>
    intro h counter hc
    have hc0 : (match params.category with
        | some _ => (Except.error PyError.typeError : Except PyError (Harness × Nat))
        | none =>
          match h.addConnector ("_F" ++ toString (counter + 1)) { params with category := some "ferrule" } with
          | Except.error e => (Except.error e : Except PyError (Harness × Nat))
          | Except.ok h1 =>
            match (if ferCbl then h1.connect (some ("_F" ++ toString (counter + 1))) (some (.int 1)) cn pin none none
                   else h1.connect none none cn pin (some ("_F" ++ toString (counter + 1))) (some (.int 1))) with
            | Except.error e => Except.error e
            | Except.ok h2 => ferruleFold cn params ferCbl h2 (counter + 1) rest) =
        Except.error PyError.wrongDesignators := hc
    clear hc
    cases hcat : params.category with
    | some c =>
      rw [hcat] at hc0
      exact PyError.noConfusion (Except.error.inj hc0)
    | none =>
      rw [hcat] at hc0
      have hc' : (match h.addConnector ("_F" ++ toString (counter + 1)) { params with category := some "ferrule" } with
          | Except.error e => (Except.error e : Except PyError (Harness × Nat))
          | Except.ok h1 =>
            match (if ferCbl then h1.connect (some ("_F" ++ toString (counter + 1))) (some (.int 1)) cn pin none none
                   else h1.connect none none cn pin (some ("_F" ++ toString (counter + 1))) (some (.int 1))) with
            | Except.error e => Except.error e
            | Except.ok h2 => ferruleFold cn params ferCbl h2 (counter + 1) rest) =
          Except.error PyError.wrongDesignators := hc0
      clear hc0
      cases hadd : h.addConnector ("_F" ++ toString (counter + 1)) { params with category := some "ferrule" } with
      | error e =>
        rw [hadd] at hc'
        simp only [Except.error.injEq] at hc'
        subst hc'
        exact absurd (addConnector_err hadd) (by decide)
      | ok h1 =>
        rw [hadd] at hc'
        have hc2 : (match (if ferCbl then h1.connect (some ("_F" ++ toString (counter + 1))) (some (.int 1)) cn pin none none
                   else h1.connect none none cn pin (some ("_F" ++ toString (counter + 1))) (some (.int 1))) with
            | Except.error e => (Except.error e : Except PyError (Harness × Nat))
            | Except.ok h2 => ferruleFold cn params ferCbl h2 (counter + 1) rest) =
            Except.error PyError.wrongDesignators := hc'
        clear hc'
        cases hcon : (if ferCbl then h1.connect (some ("_F" ++ toString (counter + 1))) (some (.int 1)) cn pin none none
                   else h1.connect none none cn pin (some ("_F" ++ toString (counter + 1))) (some (.int 1))) with
        | error e =>
          rw [hcon] at hc2
          simp only [Except.error.injEq] at hc2
          subst hc2
          cases ferCbl with
          | true =>
            have hA : h1.connect (some ("_F" ++ toString (counter + 1))) (some (.int 1)) cn pin none none = .error .wrongDesignators := by
              simpa using hcon
            exact absurd (connect_err hA) (by decide)
          | false =>
            have hA : h1.connect none none cn pin (some ("_F" ++ toString (counter + 1))) (some (.int 1)) = .error .wrongDesignators := by
              simpa using hcon
            exact absurd (connect_err hA) (by decide)
        | ok h2 =>
          rw [hcon] at hc2
          exact ih h2 (counter + 1) hc2

lemma parse2rest_ne_wd (inp : Input) (h : Harness) (counter : Nat) (fn tn : String)
    (fs ts : PinSpec) (c1 c2 c3 c4 c5 : Bool) :
    parse2rest inp h counter fn tn fs ts c1 c2 c3 c4 c5 ≠ .error .wrongDesignators := by
  unfold parse2rest
  intro hc
  split at hc
  · rename_i e he
    cases hc
    exact absurd (expandPy_err he) (by decide)
  · rename_i fps hfps
    split at hc
    · rename_i e he
      cases hc
      exact absurd (expandPy_err he) (by decide)
    · rename_i tps htps
      split at hc
      · cases hc
      · split at hc
        · rename_i e he
          cases hc
          split at he
          · exact conCblFold_ne_wd _ _ he
          · split at he
            · exact cblConFold_ne_wd _ _ he
            · split at he
              · exact loopsFold_ne_wd _ _ he
              · cases he
        · rename_i h1 he
          split at hc
          · have hc2 : (match alGet inp.ferrules (if c4 then fn else tn) with
                | none => (Except.error PyError.keyError : Except PyError (Harness × Nat))
                | some params =>
                  ferruleFold (if c4 then tn else fn) params c4 h1 counter
                    (if c4 then tps else fps)) =
                Except.error PyError.wrongDesignators := hc
            clear hc
            cases hpar : alGet inp.ferrules (if c4 then fn else tn) with
            | none =>
              rw [hpar] at hc2
              simp at hc2
            | some params =>
              rw [hpar] at hc2
              exact ferruleFold_ne_wd _ _ _ hc2
          · simp at hc

lemma parse2core_eq (inp : Input) (h : Harness) (counter : Nat) (fn tn : String)
    (fs ts : PinSpec) :
    parse2core inp h counter fn tn fs ts =
      if anyPattern inp fn tn = false then .error .wrongDesignators
      else parse2rest inp h counter fn tn fs ts
        (check_designators inp [fn, tn] [.connectors, .cables])
        (check_designators inp [fn, tn] [.cables, .connectors])
        (check_designators inp [fn, tn] [.connectors, .connectors])
        (check_designators inp [fn, tn] [.ferrules, .cables])
        (check_designators inp [fn, tn] [.cables, .ferrules]) := by
  unfold parse2core anyPattern
  cases check_designators inp [fn, tn] [.connectors, .cables] <;>
    cases check_designators inp [fn, tn] [.cables, .connectors] <;>
    cases check_designators inp [fn, tn] [.connectors, .connectors] <;>
    cases check_designators inp [fn, tn] [.ferrules, .cables] <;>
    cases check_designators inp [fn, tn] [.cables, .ferrules] <;> rfl

/-- C3 (amended): a well-formed 2-element record is rejected with the
`'Wrong designators'` error **exactly when none** of the five role patterns
matches.  When more than one pattern matches the record is *not* rejected:
the connector/cable patterns are processed with (connector, cable) and
(cable, connector) taking precedence over (connector, connector), and the
ferrule patterns are processed *additionally* (see
`parse2_multi_pattern_processed`). -/
theorem parse2_wrong_designators_iff :
    ∀ (inp : Input) (h : Harness) (counter : Nat) (e0 e1 : RecElem) (fn tn : String)
      (fs ts : PinSpec),
    normElem e0 = [(fn, fs)] → normElem e1 = [(tn, ts)] →
    (parse2 inp h counter e0 e1 = .error .wrongDesignators ↔
      anyPattern inp fn tn = false) := by
  intro inp h counter e0 e1 fn tn fs ts hn0 hn1
  rw [parse2_norm hn0 hn1, parse2core_eq]
  constructor
  · intro heq
    by_cases hany : anyPattern inp fn tn = false
    · exact hany
    · rw [if_neg hany] at heq
      exact absurd heq (parse2rest_ne_wd _ _ _ _ _ _ _ _ _ _ _ _)
  · intro hany
    rw [if_pos hany]

/-- Witness for `parse2_wrong_designators_iff`. -/
theorem parse2_wrong_designators_iff_witness :
    parse2 ⟨[], [], []⟩ ⟨[], []⟩ 0 (.bare "A") (.bare "B") = .error .wrongDesignators :=
  (parse2_wrong_designators_iff ⟨[], [], []⟩ ⟨[], []⟩ 0 (.bare "A") (.bare "B") "A" "B"
    (Sum.inl (Scalar.str "A")) (Sum.inl (Scalar.str "B")) rfl rfl).mpr (by decide)

def connX : Connector := ⟨"X", none, none, none, 1, [.str ""], false, false, false, [], []⟩

def cabW : Cable := ⟨"W", none, none, none, 0, 1, false, ["red"], []⟩

def inpDual : Input := ⟨["X"], ["W"], [("X", {})]⟩

def harnessDual : Harness := ⟨[("X", connX)], [("W", cabW)]⟩

/-- C3 counterexample: the name `X` is declared both as a connector and as a
ferrule template, so the record `[{X: 1}, {W: 1}]` matches both the
(connector, cable) and the (ferrule, cable) patterns.  The claim says such a
record is rejected as `'Wrong designators'` and never processed under two
patterns at once; in fact it is accepted and processed under **both**: the
cable `W` ends with two connections (the connector one and the ferrule one),
a ferrule instance `_F1` is synthesized (counter 0 → 1), and `X`'s pin 1 is
activated. -/
theorem parse2_multi_pattern_processed :
    parse2 inpDual harnessDual 0 (.dict [("X", Sum.inl (Scalar.int 1))])
        (.dict [("W", Sum.inl (Scalar.int 1))]) ≠ .error .wrongDesignators ∧
    (parse2 inpDual harnessDual 0 (.dict [("X", Sum.inl (Scalar.int 1))])
        (.dict [("W", Sum.inl (Scalar.int 1))])).map
      (fun x => ((cableConns x.1 "W").length, alHas x.1.connectors "_F1",
        pinActiveB x.1 "X" (.int 1), x.2)) = .ok (2, true, true, 1) := by
  constructor
  · decide
  · decide

/-! ## BOM aggregation: bundle wires (wireviz.py lines 280–308, C4)

`Harness.bom`'s third pass: group the cables by `(category, gauge,
gauge_unit, length)` (a `Counter` iterates keys in first-occurrence order),
expand each all-bundle group into one wire record per conductor — the source
attaches `list(items.keys())`, i.e. the designators of the *whole group*, to
every record — then regroup the records by `(gauge, gauge_unit, color)` and
emit one line item per key with the summed length rounded to 3 decimals and
the deduplicated, sorted designator union.  The human-readable description
string of each item is presentation only and not modelled. -/

/-- `list(dict.fromkeys(l))` / `Counter` key order: first occurrences, in
order. -/
def firstDedupAux {α : Type} [DecidableEq α] (seen : List α) : List α → List α
  | [] => []
  | a :: rest =>
    if a ∈ seen then firstDedupAux seen rest else a :: firstDedupAux (a :: seen) rest

def firstDedup {α : Type} [DecidableEq α] (l : List α) : List α := firstDedupAux [] l

/-- Python `list.sort()` on strings: stable ascending insertion sort. -/
def insertSorted (x : String) : List String → List String
  | [] => [x]
  | y :: ys => if x ≤ y then x :: y :: ys else y :: insertSorted x ys

def sortStrings : List String → List String
  | [] => []
  | x :: xs => insertSorted x (sortStrings xs)

/-- Python `round(x, 3)` modelled exactly over the rationals: round half to
even at the third decimal.  (`ratFloor` is the mathematical floor, computed
on the reduced numerator and denominator.) -/
def ratFloor (q : ℚ) : Int := q.num.fdiv q.den

def roundHalfEven (q : ℚ) : Int :=
  if q - (ratFloor q : ℚ) < 1 / 2 then ratFloor q
  else if 1 / 2 < q - (ratFloor q : ℚ) then ratFloor q + 1
  else if ratFloor q % 2 = 0 then ratFloor q else ratFloor q + 1

def round3 (q : ℚ) : ℚ := (roundHalfEven (q * 1000) : ℚ) / 1000

/-- One synthetic wire record of the bundle pass. -/
structure WireRec where
  gauge : Option GaugeVal
  gauge_unit : Option String
  length : ℚ
  color : String
  designators : List String
deriving DecidableEq

/-- A BOM line item (without its description string). -/
structure BomItem where
  qty : ℚ
  unit : String
  designators : List String
deriving DecidableEq

/-- The first grouping key `(v.category, v.gauge, v.gauge_unit, v.length)`. -/
def cabKey (c : Cable) : Option String × Option GaugeVal × Option String × ℚ :=
  (c.category, c.gauge, c.gauge_unit, c.length)

/-- The records contributed by one first-pass group `ty`: nothing unless the
group's (shared) category is `bundle`, else one record per conductor of each
member, carrying the group's `gauge`/`gauge_unit`/`length` (all equal across
the group by the key) and the group's full designator list. -/
def bundleGroup (cables : List (String × Cable))
    (ty : Option String × Option GaugeVal × Option String × ℚ) : List WireRec :=
  let items := cables.filter (fun kv => decide (cabKey kv.2 = ty))
  match items with
  | [] => []
  | (_, shared) :: _ =>
    if shared.category == some "bundle" then
      items.flatMap (fun kv => kv.2.colors.map (fun color =>
        ⟨shared.gauge, shared.gauge_unit, shared.length, color, items.map Prod.fst⟩))
    else []

/-- The wirelist build: the groups in first-occurrence key order. -/
def bundleWirelist (cables : List (String × Cable)) : List WireRec :=
  (firstDedup (cables.map (fun kv => cabKey kv.2))).flatMap (bundleGroup cables)

/-- The second grouping key `(v['gauge'], v['gauge_unit'], v['color'])`. -/
def wireKey (w : WireRec) : Option GaugeVal × Option String × String :=
  (w.gauge, w.gauge_unit, w.color)

/-- The bundle-wire line items: one per distinct `(gauge, gauge_unit, color)`
key of the wirelist, with summed rounded length and deduplicated sorted
designator union.  (The source reads `items[0]` only for the description
string; the group is never empty since its key is drawn from the list.) -/
def bundleBomItems (cables : List (String × Cable)) : List BomItem :=
  let wl := bundleWirelist cables
  (firstDedup (wl.map wireKey)).map (fun ty =>
    let items := wl.filter (fun w => decide (wireKey w = ty))
    ⟨round3 ((items.map WireRec.length).sum), "m",
     sortStrings (firstDedup (items.flatMap WireRec.designators))⟩)

/-- Two bundles agreeing on `(category, gauge, gauge_unit, length)` but with
disjoint colors: the first-pass group is `{B1, B2}`. -/
def bunB1 : Cable := ⟨"B1", some "bundle", none, none, 2, 1, false, ["red"], []⟩

def bunB2 : Cable := ⟨"B2", some "bundle", none, none, 2, 1, false, ["blue"], []⟩

lemma firstDedupAux_mem {α : Type} [DecidableEq α] (seen : List α) (l : List α) (x : α) :
    x ∈ firstDedupAux seen l ↔ x ∈ l ∧ x ∉ seen := by
  induction l generalizing seen with
  | nil => simp [firstDedupAux]
  | cons a rest ih =>
    unfold firstDedupAux
    by_cases ha : a ∈ seen
    · rw [if_pos ha, ih]
      constructor
      · rintro ⟨hx, hs⟩
        exact ⟨List.mem_cons_of_mem _ hx, hs⟩
      · rintro ⟨hx, hs⟩
        rcases List.mem_cons.mp hx with rfl | hx'
        · exact absurd ha hs
        · exact ⟨hx', hs⟩
    · rw [if_neg ha]
      constructor
      · intro hx
        rcases List.mem_cons.mp hx with rfl | hx'
        · exact ⟨List.mem_cons_self _ _, ha⟩
        · obtain ⟨h1, h2⟩ := (ih (a :: seen)).mp hx'
          exact ⟨List.mem_cons_of_mem _ h1, fun hs => h2 (List.mem_cons_of_mem _ hs)⟩
      · rintro ⟨hx, hs⟩
        rcases List.mem_cons.mp hx with rfl | hx'
        · exact List.mem_cons_self _ _
        · by_cases hxa : x = a
          · subst hxa
            exact List.mem_cons_self _ _
          · refine List.mem_cons_of_mem _ ((ih (a :: seen)).mpr ⟨hx', ?_⟩)
            intro hm
            rcases List.mem_cons.mp hm with h | h
            · exact hxa h
            · exact hs h

lemma firstDedup_mem {α : Type} [DecidableEq α] (l : List α) (x : α) :
    x ∈ firstDedup l ↔ x ∈ l := by
  unfold firstDedup
  rw [firstDedupAux_mem]
  simp

lemma firstDedupAux_nodup {α : Type} [DecidableEq α] (seen : List α) (l : List α) :
    (firstDedupAux seen l).Nodup := by
  induction l generalizing seen with
  | nil => exact List.nodup_nil
  | cons a rest ih =>
    unfold firstDedupAux
    by_cases ha : a ∈ seen
    · rw [if_pos ha]
      exact ih seen
    · rw [if_neg ha]
      refine List.nodup_cons.mpr ⟨?_, ih (a :: seen)⟩
      intro hmem
      exact ((firstDedupAux_mem _ _ _).mp hmem).2 (List.mem_cons_self a seen)

lemma firstDedup_nodup {α : Type} [DecidableEq α] (l : List α) :
    (firstDedup l).Nodup :=
  firstDedupAux_nodup [] l

lemma sum_filter_cons_key {α κ : Type} [DecidableEq κ] (key : α → κ) (g : α → Nat)
    (ty : κ) (K : List κ) (hty : ty ∉ K) (l : List α) :
    ((l.filter (fun a => decide (key a = ty))).map g).sum +
      ((l.filter (fun a => decide (key a ∈ K))).map g).sum =
      ((l.filter (fun a => decide (key a ∈ ty :: K))).map g).sum := by
  induction l with
  | nil => simp
  | cons a rest ih =>
    by_cases hk : key a = ty
    · have e1 : (a :: rest).filter (fun x => decide (key x = ty)) =
          a :: rest.filter (fun x => decide (key x = ty)) :=
        List.filter_cons_of_pos (by simp [hk])
      have e2 : (a :: rest).filter (fun x => decide (key x ∈ K)) =
          rest.filter (fun x => decide (key x ∈ K)) :=
        List.filter_cons_of_neg (by simp [hk, hty])
      have e3 : (a :: rest).filter (fun x => decide (key x ∈ ty :: K)) =
          a :: rest.filter (fun x => decide (key x ∈ ty :: K)) :=
        List.filter_cons_of_pos (by simp [hk])
      rw [e1, e2, e3]
      simp only [List.map_cons, List.sum_cons]
      omega
    · by_cases hk2 : key a ∈ K
      · have e1 : (a :: rest).filter (fun x => decide (key x = ty)) =
            rest.filter (fun x => decide (key x = ty)) :=
          List.filter_cons_of_neg (by simp [hk])
        have e2 : (a :: rest).filter (fun x => decide (key x ∈ K)) =
            a :: rest.filter (fun x => decide (key x ∈ K)) :=
          List.filter_cons_of_pos (by simp [hk2])
        have e3 : (a :: rest).filter (fun x => decide (key x ∈ ty :: K)) =
            a :: rest.filter (fun x => decide (key x ∈ ty :: K)) :=
          List.filter_cons_of_pos (by simp [hk2])
        rw [e1, e2, e3]
        simp only [List.map_cons, List.sum_cons]
        omega
      · have e1 : (a :: rest).filter (fun x => decide (key x = ty)) =
            rest.filter (fun x => decide (key x = ty)) :=
          List.filter_cons_of_neg (by simp [hk])
        have e2 : (a :: rest).filter (fun x => decide (key x ∈ K)) =
            rest.filter (fun x => decide (key x ∈ K)) :=
          List.filter_cons_of_neg (by simp [hk2])
        have e3 : (a :: rest).filter (fun x => decide (key x ∈ ty :: K)) =
            rest.filter (fun x => decide (key x ∈ ty :: K)) :=
          List.filter_cons_of_neg (by simp [hk, hk2])
        rw [e1, e2, e3]
        exact ih

lemma sum_filter_keys {α κ : Type} [DecidableEq κ] (key : α → κ) (g : α → Nat)
    (l : List α) (K : List κ) (hnd : K.Nodup) :
    ((K.map (fun ty => ((l.filter (fun a => decide (key a = ty))).map g).sum)).sum =
      ((l.filter (fun a => decide (key a ∈ K))).map g).sum) := by
  induction K with
  | nil => simp
  | cons ty K' ih =>
    obtain ⟨hty, hnd'⟩ := List.nodup_cons.mp hnd
    simp only [List.map_cons, List.sum_cons]
    rw [ih hnd']
    exact sum_filter_cons_key key g ty K' hty l

lemma filter_key_in_dedup {α κ : Type} [DecidableEq κ] (key : α → κ) (l : List α) :
    l.filter (fun a => decide (key a ∈ firstDedup (l.map key))) = l := by
  apply List.filter_eq_self.mpr
  intro a ha
  simp only [decide_eq_true_eq, firstDedup_mem]
  exact List.mem_map_of_mem key ha

lemma length_flatMap_sum {α β : Type} (f : α → List β) (l : List α) :
    (l.flatMap f).length = (l.map (fun a => (f a).length)).sum := by
  induction l with
  | nil => rfl
  | cons a rest ih => simp [List.flatMap_cons, ih]

lemma sum_ite_filter {α : Type} (p : α → Bool) (f : α → Nat) (l : List α) :
    (l.map (fun a => if p a then f a else 0)).sum = ((l.filter p).map f).sum := by
  induction l with
  | nil => rfl
  | cons a rest ih =>
    by_cases hp : p a = true
    · simp only [List.map_cons, List.sum_cons, List.filter_cons, hp, if_true, ih]
    · have hp' : p a = false := by
        cases h : p a
        · rfl
        · exact absurd h hp
      simp only [List.map_cons, List.sum_cons, List.filter_cons, hp', if_false, ih,
        Bool.false_eq_true, Nat.zero_add]

lemma bundleGroup_length (cables : List (String × Cable))
    (ty : Option String × Option GaugeVal × Option String × ℚ) :
    (bundleGroup cables ty).length =
      ((cables.filter (fun kv => decide (cabKey kv.2 = ty))).map
        (fun kv => if kv.2.category == some "bundle" then kv.2.colors.length else 0)).sum := by
  have hmemcat : ∀ kv ∈ cables.filter (fun kv => decide (cabKey kv.2 = ty)),
      kv.2.category = ty.1 := by
    intro kv hkv
    have heq : cabKey kv.2 = ty := by simpa using List.of_mem_filter hkv
    rw [← heq]
    rfl
  simp only [bundleGroup]
  rcases hitems : cables.filter (fun kv => decide (cabKey kv.2 = ty)) with _ | ⟨⟨k0, shared⟩, tl⟩
  · rw [hitems]
    simp
  · rw [hitems] at hmemcat ⊢
    dsimp only
    have hsharedcat : shared.category = ty.1 :=
      hmemcat (k0, shared) (List.mem_cons_self _ _)
    cases hb : (shared.category == some "bundle") with
    | true =>
      have hbun : ty.1 = some "bundle" := by
        rw [← hsharedcat]
        simpa using hb
      rw [if_pos rfl, length_flatMap_sum]
      refine congrArg List.sum (List.map_congr_left ?_)
      intro kv hkv
      have hcat : (kv.2.category == some "bundle") = true := by
        rw [hmemcat kv hkv, hbun]
        simp
      rw [hcat, if_pos rfl, List.length_map]
    | false =>
      rw [if_neg Bool.false_ne_true]
      simp only [List.length_nil]
      symm
      apply List.sum_eq_zero
      intro x hx
      obtain ⟨kv, hkv, hxeq⟩ := List.mem_map.mp hx
      have hcat : (kv.2.category == some "bundle") = false := by
        rw [hmemcat kv hkv, ← hsharedcat]
        exact hb
      rw [← hxeq, hcat]
      rfl

lemma bundleWirelist_length (cables : List (String × Cable)) :
    (bundleWirelist cables).length =
      ((cables.filter (fun kv => kv.2.category == some "bundle")).map
        (fun kv => kv.2.colors.length)).sum := by
  have h1 : (bundleWirelist cables).length =
      ((firstDedup (cables.map (fun kv => cabKey kv.2))).map
        (fun ty => ((cables.filter (fun kv => decide (cabKey kv.2 = ty))).map
          (fun kv => if kv.2.category == some "bundle" then kv.2.colors.length
            else 0)).sum)).sum := by
    unfold bundleWirelist
    rw [length_flatMap_sum]
    refine congrArg List.sum (List.map_congr_left ?_)
    intro ty _
    exact bundleGroup_length cables ty
  have h2 := sum_filter_keys (fun kv : String × Cable => cabKey kv.2)
    (fun kv => if kv.2.category == some "bundle" then kv.2.colors.length else 0)
    cables (firstDedup (cables.map (fun kv => cabKey kv.2))) (firstDedup_nodup _)
  have h3 := filter_key_in_dedup (fun kv : String × Cable => cabKey kv.2) cables
  have h4 := congrArg (fun l : List (String × Cable) =>
    (l.map (fun kv => if kv.2.category == some "bundle" then kv.2.colors.length
      else 0)).sum) h3
  exact h1.trans (h2.trans (h4.trans (sum_ite_filter _ _ _)))

lemma bundleWirelist_mem (cables : List (String × Cable)) (rec : WireRec)
    (h : rec ∈ bundleWirelist cables) :
    rec.designators = (cables.filter (fun kv =>
        decide (cabKey kv.2 = (some "bundle", rec.gauge, rec.gauge_unit, rec.length)))).map
        Prod.fst ∧
    ∃ kv, kv ∈ cables ∧
      cabKey kv.2 = (some "bundle", rec.gauge, rec.gauge_unit, rec.length) ∧
      rec.color ∈ kv.2.colors := by
  obtain ⟨ty, htyK, hrec⟩ := List.mem_flatMap.mp h
  simp only [bundleGroup] at hrec
  rcases hitems : cables.filter (fun kv => decide (cabKey kv.2 = ty)) with _ | ⟨⟨k0, shared⟩, tl⟩
  · rw [hitems] at hrec
    simp at hrec
  · rw [hitems] at hrec
    dsimp only at hrec
    cases hb : (shared.category == some "bundle") with
    | false =>
      rw [hb] at hrec
      simp at hrec
    | true =>
      rw [hb, if_pos rfl] at hrec
      obtain ⟨kv, hkv, hrec2⟩ := List.mem_flatMap.mp hrec
      obtain ⟨color, hcol, heq⟩ := List.mem_map.mp hrec2
      have hsh : cabKey shared = ty := by
        have hmem : (k0, shared) ∈ cables.filter (fun kv => decide (cabKey kv.2 = ty)) := by
          rw [hitems]
          exact List.mem_cons_self _ _
        simpa using List.of_mem_filter hmem
      have hbc : shared.category = some "bundle" := by simpa using hb
      have hty : ty = (some "bundle", shared.gauge, shared.gauge_unit, shared.length) := by
        rw [← hsh]
        simp [cabKey, hbc]
      have hkvf : kv ∈ cables.filter (fun kv => decide (cabKey kv.2 = ty)) := by
        rw [hitems]
        exact hkv
      subst heq
      constructor
      · show ((k0, shared) :: tl).map Prod.fst = _
        dsimp only
        rw [← hty, hitems]
      · refine ⟨kv, List.mem_of_mem_filter hkvf, ?_, hcol⟩
        have hkey : cabKey kv.2 = ty := by simpa using List.of_mem_filter hkvf
        rw [hkey, hty]

lemma bundleBomItems_mem (cables : List (String × Cable)) (item : BomItem)
    (h : item ∈ bundleBomItems cables) :
    ∃ ty, ty ∈ firstDedup ((bundleWirelist cables).map wireKey) ∧
      item.unit = "m" ∧
      item.qty = round3 ((((bundleWirelist cables).filter
        (fun w => decide (wireKey w = ty))).map WireRec.length).sum) ∧
      item.designators = sortStrings (firstDedup
        (((bundleWirelist cables).filter (fun w => decide (wireKey w = ty))).flatMap
          WireRec.designators)) := by
  simp only [bundleBomItems] at h
  obtain ⟨ty, hty, heq⟩ := List.mem_map.mp h
  subst heq
  exact ⟨ty, hty, rfl, rfl, rfl⟩

/-- **C4 (counterexample).** Bundles `B1` (colors `[red]`) and `B2` (colors
`[blue]`) share the first-pass key `(bundle, None, None, 2)`, so the code
attaches `list(items.keys()) = [B1, B2]` to *every* wire record of the group:
the `red` line item's designators are `[B1, B2]` although `B2` owns no red
conductor, refuting the claim's "a bundle with no conductor of that color
never appears in the group's designators". -/
theorem bom_bundle_designators_overattached :
    bundleWirelist [("B1", bunB1), ("B2", bunB2)] =
      [⟨none, none, 2, "red", ["B1", "B2"]⟩, ⟨none, none, 2, "blue", ["B1", "B2"]⟩] ∧
    bundleBomItems [("B1", bunB1), ("B2", bunB2)] =
      [⟨2, "m", ["B1", "B2"]⟩, ⟨2, "m", ["B1", "B2"]⟩] ∧
    "red" ∉ bunB2.colors := by
  refine ⟨by decide, by with_unfolding_all rfl, by decide⟩

/-- **C4 (amended).** The bundle-wire BOM pass as the code performs it:
(a) the wirelist holds exactly one record per conductor of each bundle cable;
(b) every record's designator list is the designators of ALL bundles sharing
the record's `(gauge, gauge_unit, length)` first-pass group — not only the
bundles owning a conductor of the record's color — and some bundle of that
group does own the record's color; (c) every line item covers one
`(gauge, gauge_unit, color)` key of the wirelist, with unit `m`, quantity
the half-even-rounded (3 decimals) sum of the group's lengths, and
designators the deduplicated (first occurrence kept), sorted union of the
group's designator lists. -/
theorem bom_bundle_wires_spec :
    (∀ cables : List (String × Cable),
      (bundleWirelist cables).length =
        ((cables.filter (fun kv => kv.2.category == some "bundle")).map
          (fun kv => kv.2.colors.length)).sum) ∧
    (∀ (cables : List (String × Cable)) (rec : WireRec),
      rec ∈ bundleWirelist cables →
      rec.designators = (cables.filter (fun kv =>
          decide (cabKey kv.2 =
            (some "bundle", rec.gauge, rec.gauge_unit, rec.length)))).map Prod.fst ∧
      ∃ kv, kv ∈ cables ∧
        cabKey kv.2 = (some "bundle", rec.gauge, rec.gauge_unit, rec.length) ∧
        rec.color ∈ kv.2.colors) ∧
    (∀ (cables : List (String × Cable)) (item : BomItem),
      item ∈ bundleBomItems cables →
      ∃ ty, ty ∈ firstDedup ((bundleWirelist cables).map wireKey) ∧
        item.unit = "m" ∧
        item.qty = round3 ((((bundleWirelist cables).filter
          (fun w => decide (wireKey w = ty))).map WireRec.length).sum) ∧
        item.designators = sortStrings (firstDedup
          (((bundleWirelist cables).filter
            (fun w => decide (wireKey w = ty))).flatMap WireRec.designators))) :=
  ⟨bundleWirelist_length, bundleWirelist_mem, bundleBomItems_mem⟩

/-- Witness: the red record of the `[B1, B2]` example instantiates the
membership part of the amended C4 theorem. -/
theorem bom_bundle_wires_spec_witness :
    (⟨none, none, 2, "red", ["B1", "B2"]⟩ : WireRec) ∈
        bundleWirelist [("B1", bunB1), ("B2", bunB2)] ∧
    ((⟨none, none, 2, "red", ["B1", "B2"]⟩ : WireRec).designators =
        ([("B1", bunB1), ("B2", bunB2)].filter (fun kv =>
          decide (cabKey kv.2 = (some "bundle", none, none, 2)))).map Prod.fst ∧
      ∃ kv, kv ∈ [("B1", bunB1), ("B2", bunB2)] ∧
        cabKey kv.2 = (some "bundle", none, none, 2) ∧
        "red" ∈ kv.2.colors) := by
  constructor
  · decide
  · exact bom_bundle_wires_spec.2.1 [("B1", bunB1), ("B2", bunB2)]
      ⟨none, none, 2, "red", ["B1", "B2"]⟩ (by decide)

end WireViz
